import Mathlib

/-!
# Verification of the youtube-summarizer content-normalization core

This file embeds the algorithmic core of the repository (the Timestamp
Codec, Result Normalizer, Transcript Segmenter, Mind-map Layout Engine and
Player Sync Controller from `src/frontend/src/App.jsx` and the mind-map
canvas module) as executable Lean definitions, and proves or refutes the
specified properties about them.

Modelling conventions:
* JavaScript values are modelled by `JSVal`: `null`, `undefined`, booleans,
  finite numbers (as exact rationals), `NaN`, strings, and flat arrays of
  scalars (nested arrays do not occur in the code paths under study).
* JavaScript built-ins (`Number(...)`, `parseInt`, `String(...)`,
  `Number.prototype.toString`, `padStart`, `split`, `trim`) are modelled by
  explicit Lean functions over character lists; each carries a doc comment
  stating exactly what it covers.  `Number(...)` is modelled on its whole
  string grammar — whitespace trim, decimal numerals with fractional part
  and exponent, and hex/octal/binary radix literals — except the `Infinity`
  literals, the one form with no finite value; theorems that quantify over
  arbitrary strings exclude those groups explicitly (`isInfinityGroup`).
* Machine floating point is modelled by `ℚ`; all constants appearing in the
  code (`0.05`, `0.1`, `0.4`, `2.5`, `120`, `180`, …) and all values reached
  in the properties are exactly representable, so no rounding behaviour is
  lost on the statements proved here.
-/

namespace YtSum

/-! ## JavaScript value model -/

/-- A scalar JavaScript value. -/
inductive JSPrim where
  | null
  | undefVal
  | nan
  | bool (b : Bool)
  | num (q : ℚ)
  | str (s : String)
deriving DecidableEq, Repr

/-- A JavaScript value: a scalar or a (flat) array of scalars.  The code
paths embedded here never build nested arrays, so one level suffices. -/
inductive JSVal where
  | prim (p : JSPrim)
  | arr (elems : List JSPrim)
deriving DecidableEq, Repr

/-- `null` as a `JSVal`. -/
abbrev jnull : JSVal := .prim .null
/-- `undefined` as a `JSVal`. -/
abbrev jundefVal : JSVal := .prim .undefVal
/-- `NaN` as a `JSVal`. -/
abbrev jnan : JSVal := .prim .nan
/-- A finite number as a `JSVal`. -/
abbrev jnum (q : ℚ) : JSVal := .prim (.num q)
/-- A string as a `JSVal`. -/
abbrev jstr (s : String) : JSVal := .prim (.str s)
/-- A boolean as a `JSVal`. -/
abbrev jbool (b : Bool) : JSVal := .prim (.bool b)

/-- JavaScript truthiness of a value (`Boolean(v)`). -/
def truthy : JSVal → Bool
  | .prim .null => false
  | .prim .undefVal => false
  | .prim .nan => false
  | .prim (.bool b) => b
  | .prim (.num q) => q != 0
  | .prim (.str s) => s != ""
  | .arr _ => true

/-- Loose equality with `null` (`v == null`), true exactly on `null` and
`undefined`. -/
def looseNull : JSVal → Bool
  | .prim .null => true
  | .prim .undefVal => true
  | _ => false

/-! ## Character-level string helpers

JavaScript string built-ins are modelled over `List Char`; a Lean `String`
is converted with `String.toList` / `List.asString` (mutually inverse). -/

/-- The JavaScript whitespace characters (the `WhiteSpace` and
`LineTerminator` productions: ASCII whitespace, NBSP, ZWNBSP, the Unicode
`Zs` spaces and the line/paragraph separators). -/
def jsWsChars : List Char :=
  [' ', '\t', '\n', '\r', '\x0b', '\x0c', '\u00A0', '\uFEFF', '\u1680',
   '\u2000', '\u2001', '\u2002', '\u2003', '\u2004', '\u2005', '\u2006',
   '\u2007', '\u2008', '\u2009', '\u200A', '\u2028', '\u2029', '\u202F',
   '\u205F', '\u3000']

/-- Is the character JavaScript whitespace? -/
def isWs (c : Char) : Bool := jsWsChars.contains c

/-- Drop leading whitespace. -/
def dropLeadingWs (l : List Char) : List Char := l.dropWhile isWs

/-- Models `String.prototype.trim` on a character list. -/
def trimWs (l : List Char) : List Char :=
  ((l.dropWhile isWs).reverse.dropWhile isWs).reverse

/-- The numeric value of a digit list read in base 10 (`"0123"` ↦ `123`).
Leading zeros are allowed. -/
def digitsVal (l : List Char) : ℕ :=
  l.foldl (fun a c => a * 10 + (c.toNat - 48)) 0

/-- The character of a single decimal digit (`5` ↦ `'5'`). -/
def digitChar (n : ℕ) : Char := Char.ofNat (48 + n)

/-- Fuelled decimal printer for naturals; `natDigits` supplies enough fuel. -/
def natDigitsAux : ℕ → ℕ → List Char
  | 0, _ => []
  | f + 1, n =>
    if n < 10 then [digitChar n]
    else natDigitsAux f (n / 10) ++ [digitChar (n % 10)]

/-- Models JavaScript number-to-string conversion for a nonnegative integer
(plain decimal digits, no leading zeros). -/
def natDigits (n : ℕ) : List Char := natDigitsAux (n + 1) n

/-- Models JavaScript `Number.prototype.toString` for an integer. -/
def jsIntChars (i : ℤ) : List Char :=
  if i < 0 then '-' :: natDigits i.natAbs else natDigits i.natAbs

/-- Models `s.padStart(2, "0")` on a character list. -/
def padChars2 (l : List Char) : List Char :=
  List.replicate (2 - l.length) '0' ++ l

/-- Models `String.prototype.split` with a single-character separator
(e.g. `"a:b".split(":")`): `""` splits to `[""]`, separators at the ends
produce empty groups. -/
def splitOnChar (sep : Char) : List Char → List (List Char)
  | [] => [[]]
  | c :: cs =>
    if c = sep then [] :: splitOnChar sep cs
    else
      match splitOnChar sep cs with
      | [] => [[c]]
      | g :: gs => (c :: g) :: gs

/-- Reads an optional leading sign; returns (isNegative, rest). -/
def readSign : List Char → Bool × List Char
  | [] => (false, [])
  | c :: r => if c = '-' then (true, r) else if c = '+' then (false, r) else (false, c :: r)

/-- Reads an unsigned decimal mantissa (`digits`, `digits.digits?` or
`.digits`) from the front of the list; returns its value and the rest, or
`none` when no digit is present. -/
def readMantissa (l : List Char) : Option (ℚ × List Char) :=
  let intPart := l.takeWhile Char.isDigit
  let r1 := l.dropWhile Char.isDigit
  match r1 with
  | '.' :: r2 =>
    let frac := r2.takeWhile Char.isDigit
    let r3 := r2.dropWhile Char.isDigit
    if intPart.isEmpty && frac.isEmpty then none
    else some ((digitsVal intPart : ℚ) + (digitsVal frac : ℚ) / (10 ^ frac.length), r3)
  | _ => if intPart.isEmpty then none else some ((digitsVal intPart : ℚ), r1)

/-- Reads the optional exponent part that must span the whole rest:
the empty rest is exponent `0`, otherwise `e`/`E`, an optional sign and at
least one digit. -/
def readExponent (l : List Char) : Option ℤ :=
  match l with
  | [] => some 0
  | e :: r =>
    if e = 'e' ∨ e = 'E' then
      let (neg, ds) := readSign r
      if !ds.isEmpty && ds.all Char.isDigit then
        some (if neg then -(digitsVal ds : ℤ) else (digitsVal ds : ℤ))
      else none
    else none

/-- Reads an unsigned decimal numeral with optional fractional part and
optional exponent, spanning the whole list; `none` on any other shape. -/
def readDecimal (l : List Char) : Option ℚ :=
  match readMantissa l with
  | none => none
  | some (m, rest) =>
    match readExponent rest with
    | none => none
    | some e => some (m * (10 : ℚ) ^ e)

/-- A hexadecimal digit. -/
def isHexDigitChar (c : Char) : Bool :=
  c.isDigit || ('a' ≤ c && c ≤ 'f') || ('A' ≤ c && c ≤ 'F')

/-- The value of a hexadecimal digit. -/
def hexDigitVal (c : Char) : ℕ :=
  if c.isDigit then c.toNat - 48
  else if 'a' ≤ c && c ≤ 'f' then c.toNat - 87
  else c.toNat - 55

/-- An octal digit. -/
def isOctDigitChar (c : Char) : Bool := '0' ≤ c && c ≤ '7'

/-- A binary digit. -/
def isBinDigitChar (c : Char) : Bool := c = '0' || c = '1'

/-- The value of a digit list in the given base. -/
def baseDigitsVal (base : ℕ) (val : Char → ℕ) (l : List Char) : ℕ :=
  l.foldl (fun a c => a * base + val c) 0

/-- Reads a radix integer literal (`0x…`/`0X…` hex, `0o…`/`0O…` octal,
`0b…`/`0B…` binary) spanning the whole list; these carry no sign in the
`Number(string)` grammar. -/
def readRadix : List Char → Option ℕ
  | c :: p :: ds =>
    if c ≠ '0' then none
    else if p = 'x' ∨ p = 'X' then
      if !ds.isEmpty && ds.all isHexDigitChar then some (baseDigitsVal 16 hexDigitVal ds)
      else none
    else if p = 'o' ∨ p = 'O' then
      if !ds.isEmpty && ds.all isOctDigitChar then
        some (baseDigitsVal 8 (fun c => c.toNat - 48) ds)
      else none
    else if p = 'b' ∨ p = 'B' then
      if !ds.isEmpty && ds.all isBinDigitChar then
        some (baseDigitsVal 2 (fun c => c.toNat - 48) ds)
      else none
    else none
  | _ => none

/-- Is the trimmed, sign-stripped group exactly the `Infinity` literal?
`[+-]?Infinity` is the one production of the `Number(string)` grammar whose
value is not finite; the rational value model cannot represent it, and the
parse-characterisation theorem excludes such groups explicitly. -/
def isInfinityGroup (l : List Char) : Bool :=
  (readSign (trimWs l)).2 == ['I', 'n', 'f', 'i', 'n', 'i', 't', 'y']

/-- Models the JavaScript `Number(string)` coercion on its whole string
grammar except the `Infinity` literals: surrounding whitespace is trimmed,
the empty string is `0`, a radix integer literal or an optionally signed
decimal numeral (with optional fractional part and exponent) is its value,
anything else is `NaN` (`none`).  Values are kept as exact rationals — the
conversion of the mathematical value to a 64-bit float (rounding, overflow
to `Infinity` at extreme magnitudes) is idealised away, per the modelling
conventions above.  The `Infinity` literals have no finite value and are
outside the model (they map to `none`; see `isInfinityGroup`). -/
def jsNumberOfChars (l : List Char) : Option ℚ :=
  let t := trimWs l
  if t.isEmpty then some 0
  else
    match readRadix t with
    | some v => some (v : ℚ)
    | none =>
      let (neg, rest) := readSign t
      match readDecimal rest with
      | some q => some (if neg then -q else q)
      | none => none

/-- Models `parseInt(s, 10)`: leading whitespace skipped, optional sign,
then the longest leading run of digits; `NaN` (`none`) if that run is
empty.  Trailing junk is ignored, fractional parts are truncated. -/
def jsParseIntChars (l : List Char) : Option ℤ :=
  let t := dropLeadingWs l
  let (neg, rest) := readSign t
  let ds := rest.takeWhile Char.isDigit
  if ds.isEmpty then none
  else some (if neg then -(digitsVal ds : ℤ) else (digitsVal ds : ℤ))

/-- Fuelled decimal expansion of a rational in `[0,1)`; used only to print
fractional numbers inside `String(...)` coercions, which no verified code
path reaches with a non-terminating expansion. -/
def fracDigits : ℕ → ℚ → List Char
  | 0, _ => []
  | f + 1, q =>
    if q = 0 then []
    else
      let q10 := q * 10
      digitChar (⌊q10⌋.toNat % 10) :: fracDigits f (q10 - ⌊q10⌋)

/-- Models JavaScript number-to-string conversion for a finite number.
Exact on integers; finite decimal expansions are printed digit by digit. -/
def jsNumChars (q : ℚ) : List Char :=
  let a := |q|
  let ip : ℤ := ⌊a⌋
  let mag :=
    if a = ip then natDigits ip.toNat
    else natDigits ip.toNat ++ '.' :: fracDigits 30 (a - ip)
  if q < 0 then '-' :: mag else mag

/-- Models the JavaScript `String(...)` coercion on scalars. -/
def jsPrimToString : JSPrim → String
  | .null => "null"
  | .undefVal => "undefined"
  | .nan => "NaN"
  | .bool b => if b then "true" else "false"
  | .num q => (jsNumChars q).asString
  | .str s => s

/-- Models the JavaScript `String(...)` coercion on a flat array
(`Array.prototype.join(",")`, where `null`/`undefined` elements print as
the empty string). -/
def jsArrToString (l : List JSPrim) : String :=
  String.intercalate "," (l.map fun p =>
    match p with
    | .null => ""
    | .undefVal => ""
    | p => jsPrimToString p)

/-- Models the JavaScript `String(...)` coercion. -/
def jsToString : JSVal → String
  | .prim p => jsPrimToString p
  | .arr l => jsArrToString l

/-! ## Timestamp Codec -/

/-- Is the string a nonempty run of decimal digits (`/^\d+$/.test(ts)`)? -/
def isDigitRun (l : List Char) : Bool := !l.isEmpty && l.all Char.isDigit

/-- Embeds `timestampToSeconds` (src/frontend/src/App.jsx:22-42).
`ts == null` catches `null` and `undefined`; a number (including `NaN`) is
returned unchanged; a digit-only string is its numeric value; otherwise the
string is split on `":"`, each part coerced with `Number`, any `NaN` part
(or a group count other than 3 or 2) yields `null`.  Values of any other
type fall through to `null`. -/
def timestampToSeconds : JSVal → JSVal
  | .prim .null => jnull
  | .prim .undefVal => jnull
  | .prim (.num q) => jnum q
  | .prim .nan => jnan
  | .prim (.str s) =>
    let l := s.toList
    if isDigitRun l then jnum (digitsVal l)
    else
      let parts := (splitOnChar ':' l).map jsNumberOfChars
      if parts.any Option.isNone then jnull
      else
        match parts with
        | [some h, some m, some sec] => jnum (h * 3600 + m * 60 + sec)
        | [some m, some sec] => jnum (m * 60 + sec)
        | _ => jnull
  | _ => jnull

/-- Embeds `formatTimestamp` (src/frontend/src/App.jsx:1546-1559).
`null`/`undefined` give `""`; a finite number is formatted with
`Math.floor` (`Int.fdiv` models JS float-division-then-floor) and the JS
`%` remainder (`Int.tmod`, which truncates toward zero); any other value is
returned through the `String(...)` coercion. -/
def formatTimestamp : JSVal → String
  | .prim .null => ""
  | .prim .undefVal => ""
  | .prim (.num q) =>
    let total : ℤ := ⌊q⌋
    let mins : ℤ := total.fdiv 60
    let secs : ℤ := total.tmod 60
    let hours : ℤ := mins.fdiv 60
    let mm := padChars2 (jsIntChars (mins.tmod 60))
    let ss := padChars2 (jsIntChars secs)
    if hours ≠ 0 then (padChars2 (jsIntChars hours) ++ ':' :: mm ++ ':' :: ss).asString
    else (mm ++ ':' :: ss).asString
  | v => jsToString v

/-- Embeds `parseTimestampToSeconds` (src/frontend/src/App.jsx:1561-1571).
A falsy input returns `null`; a (truthy) number is returned unchanged; a
string is split on `":"`, each part read with `parseInt(p, 10)`, any `NaN`
part yields `null` and otherwise every part (whatever their number) is
folded left to right as `seconds = seconds * 60 + part`.  On a truthy
value that is neither a number nor a string, `ts.split` is not a function
and the JavaScript code throws a `TypeError`; the embedding returns that
exception in the `Except` error channel. -/
def parseTimestampToSeconds (ts : JSVal) : Except String JSVal :=
  if !truthy ts then .ok jnull
  else
    match ts with
    | .prim (.num q) => .ok (jnum q)
    | .prim (.str s) =>
      let parts := (splitOnChar ':' s.toList).map jsParseIntChars
      if parts.any Option.isNone then .ok jnull
      else .ok (jnum (parts.foldl (fun a p => a * 60 + ((p.getD 0 : ℤ) : ℚ)) 0))
    | _ => .error "TypeError: ts.split is not a function"

/-! ## Result Normalizer -/

/-- Embeds `safeArray` (src/frontend/src/App.jsx:563 and
src/frontend/src/lib/api.js:127):
`(v) => (Array.isArray(v) ? v : v ? [v] : [])`. -/
def safeArray : JSVal → List JSVal
  | .arr l => l.map .prim
  | v => if truthy v then [v] else []

/-! ## Mind-map Layout Engine -/

/-- A mind-map tree node as built by `addIds` (`_id`, `title`,
`children`); ids are opaque and unique per tree instance. -/
inductive MindmapNode where
  | mk (id : ℕ) (title : String) (children : List MindmapNode)
deriving Repr

/-- The `_id` field. -/
def MindmapNode.id : MindmapNode → ℕ
  | .mk i _ _ => i

/-- The `title` field. -/
def MindmapNode.title : MindmapNode → String
  | .mk _ t _ => t

/-- The `children` field. -/
def MindmapNode.children : MindmapNode → List MindmapNode
  | .mk _ _ cs => cs

/-- A laid-out node: `{ id, title, x, y, parent }`. -/
structure LayoutNode where
  id : ℕ
  title : String
  x : ℚ
  y : ℚ
  parent : Option ℕ
deriving DecidableEq, Repr

mutual
/-- Embeds `layoutTree` (src/unnamed/part_000, lines 146-180).  The
accumulator `out` is the mutated array; the `forEach` over the children is
embedded as `layoutTreeChildren` with the explicit child index `i`.
`gapX = 220`, `gapY = 120`, `startX = x - (children.length - 1) * gapX/2`. -/
def layoutTree : MindmapNode → ℚ → ℚ → ℕ → List LayoutNode → List LayoutNode
  | .mk nid ntitle children, x, y, level, out =>
    let out := out ++ [{ id := nid, title := ntitle, x := x, y := y, parent := none }]
    let startX := x - ((children.length : ℚ) - 1) * (220 / 2)
    layoutTreeChildren nid startX (y + 120) level 0 children out
termination_by node => sizeOf node
decreasing_by all_goals (simp; try omega)

/-- The body of the `forEach` in `layoutTree`: pushes the child entry
(recording the parent id), recurses into the child, then moves to the next
sibling. -/
def layoutTreeChildren (parentId : ℕ) (startX childY : ℚ) (level : ℕ) (i : ℕ) :
    List MindmapNode → List LayoutNode → List LayoutNode
  | [], out => out
  | child :: rest, out =>
    let childX := startX + (i : ℚ) * 220
    let out := out ++
      [{ id := child.id, title := child.title, x := childX, y := childY,
         parent := some parentId }]
    let out := layoutTree child childX childY (level + 1) out
    layoutTreeChildren parentId startX childY level (i + 1) rest out
termination_by cs => sizeOf cs
decreasing_by all_goals (simp; try omega)
end

mutual
/-- The number of nodes of a mind-map tree. -/
def countNodes : MindmapNode → ℕ
  | .mk _ _ cs => 1 + countNodesList cs

/-- The number of nodes of a forest. -/
def countNodesList : List MindmapNode → ℕ
  | [] => 0
  | c :: rest => countNodes c + countNodesList rest
end

mutual
/-- Spec-side layout (from the specification's words): one `LayoutNode` per
tree node, in pre-order, the node itself at `(x, y)` with its parent id
recorded, and the `i`-th (0-indexed) of its `k` children placed at
`(x - (k-1)*220/2 + i*220, y + 120)`. -/
def layoutSpec : Option ℕ → MindmapNode → ℚ → ℚ → List LayoutNode
  | parent, .mk nid ntitle children, x, y =>
    { id := nid, title := ntitle, x := x, y := y, parent := parent } ::
      layoutSpecChildren nid x y children.length 0 children
termination_by _ node => sizeOf node
decreasing_by all_goals (simp; try omega)

/-- Children of a node at `(x, y)` with `k` children, starting at index `i`. -/
def layoutSpecChildren (parentId : ℕ) (x y : ℚ) (k : ℕ) (i : ℕ) :
    List MindmapNode → List LayoutNode
  | [] => []
  | child :: rest =>
    layoutSpec (some parentId) child (x - ((k : ℚ) - 1) * (220 / 2) + (i : ℚ) * 220) (y + 120) ++
      layoutSpecChildren parentId x y k (i + 1) rest
termination_by cs => sizeOf cs
decreasing_by all_goals (simp; try omega)
end

/-- Duplicates every entry that records a parent: the entry as recorded by
the parent's loop, immediately followed by the copy the child's own
recursive call pushes with `parent: null`. -/
def dupNonRoot : List LayoutNode → List LayoutNode
  | [] => []
  | e :: rest =>
    match e.parent with
    | some _ => e :: { e with parent := none } :: dupNonRoot rest
    | none => e :: dupNonRoot rest

/-- Embeds the `onWheel` handler of `MindmapCanvas`
(src/unnamed/part_000, lines 209-214):
`scale ↦ min(2.5, max(0.4, scale + (deltaY > 0 ? -0.1 : 0.1)))`. -/
def wheelUpdate (deltaY : ℚ) (s : ℚ) : ℚ :=
  min 2.5 (max 0.4 (s + if deltaY > 0 then -0.1 else 0.1))

/-! ## Transcript Segmenter, Mode A -/

/-- Embeds `computeBlockSize` (src/frontend/src/App.jsx:1512-1515).
`!durationSeconds || durationSeconds <= 0` is `duration ≤ 0` on the
rational model; `0.05` is the exact `1/20`. -/
def computeBlockSize (durationSeconds : ℚ) : ℤ :=
  if durationSeconds ≤ 0 then 120
  else max 30 ⌊durationSeconds * (5 / 100)⌋

/-- A raw transcript line `{start, text}`; a missing/`null` `start` is
`none`. -/
structure TranscriptLine where
  start : Option ℚ
  text : String
deriving DecidableEq, Repr

/-- `line.start || 0`. -/
def lineStartOr0 (line : TranscriptLine) : ℚ := (line.start).getD 0

/-- `line.start` as the `JSVal` handed to `formatTimestamp`. -/
def lineStartJS (line : TranscriptLine) : JSVal :=
  match line.start with
  | none => jundefVal
  | some q => jnum q

/-- A bucket item `{...line, timestamp}`. -/
structure BucketItem where
  start : Option ℚ
  text : String
  timestamp : String
deriving DecidableEq, Repr

/-- A time bucket `{start, end, items}` (`end` is a Lean keyword; the field
is called `stop` here). -/
structure TimeBucket where
  start : ℤ
  stop : ℤ
  items : List BucketItem
deriving DecidableEq, Repr

/-- The item pushed for a line: `{...line, timestamp: formatTimestamp(line.start)}`. -/
def mkBucketItem (line : TranscriptLine) : BucketItem :=
  { start := line.start, text := line.text, timestamp := formatTimestamp (lineStartJS line) }

/-- The bucket key of a line: `Math.floor(Math.floor(line.start || 0) / blockSize) * blockSize`. -/
def bucketKey (bs : ℤ) (line : TranscriptLine) : ℤ :=
  (⌊lineStartOr0 line⌋).fdiv bs * bs

/-- The body of the `forEach` in `groupTranscriptByPercent`: find or create
the bucket of the line (a JS `Map` keyed by `bucketKey`, i.e. by the
bucket's `start`, in insertion order) and push the annotated item. -/
def pushLine (bs : ℤ) (groups : List TimeBucket) (line : TranscriptLine) : List TimeBucket :=
  let key := bucketKey bs line
  if groups.any (fun b => b.start = key) then
    groups.map fun b =>
      if b.start = key then { b with items := b.items ++ [mkBucketItem line] } else b
  else
    groups ++ [{ start := key, stop := key + bs, items := [mkBucketItem line] }]

/-- Ordering used by the final `sort((a, b) => a.start - b.start)`. -/
def bucketLE (a b : TimeBucket) : Prop := a.start ≤ b.start

instance : DecidableRel bucketLE := fun a b => inferInstanceAs (Decidable (a.start ≤ b.start))

instance : IsTotal TimeBucket bucketLE := ⟨fun a b => le_total a.start b.start⟩

instance : IsTrans TimeBucket bucketLE := ⟨fun _ _ _ => le_trans⟩

/-- Embeds `groupTranscriptByPercent` (src/frontend/src/App.jsx:1517-1542).
The JS `Map` is modelled as an insertion-ordered list of buckets keyed by
their `start`; the final stable comparator sort is modelled by
`List.insertionSort`. -/
def groupTranscriptByPercent (transcript : List TranscriptLine) (duration : ℚ) :
    List TimeBucket :=
  if transcript.isEmpty then []
  else
    let blockSize := computeBlockSize duration
    (transcript.foldl (pushLine blockSize) []).insertionSort bucketLE

/-! ## Transcript Segmenter, Mode B -/

/-- Models `text.split(/\s+/).filter(Boolean)` (the words of a string).
Splitting at every whitespace character and discarding empty groups is
extensionally the same as splitting on whitespace runs. -/
def jsWords (s : String) : List String :=
  ((s.toList.splitOnP fun c => isWs c).map List.asString).filter (· ≠ "")

/-- Embeds `limitWords` (src/frontend/src/App.jsx:1588-1593). -/
def limitWords (text : String) (maxWords : ℕ) : String :=
  if text = "" then ""
  else
    let words := jsWords text
    if words.length ≤ maxWords then " ".intercalate words
    else " ".intercalate (words.take maxWords) ++ "…"

/-- Takes greedily up to `n` characters satisfying `p` from the front. -/
def takeUpTo (p : Char → Bool) : ℕ → List Char → List Char × List Char
  | 0, l => ([], l)
  | _ + 1, [] => ([], [])
  | n + 1, c :: cs =>
    if p c then
      let (a, b) := takeUpTo p n cs
      (c :: a, b)
    else ([], c :: cs)

/-- Models the regex `/^\[(\d{1,2}:\d{2}(?::\d{2})?)\]\s*(.*)$/`
(src/frontend/src/App.jsx:1602) on a line: returns the captured timestamp
characters and the captured text after the marker, or `none` when the line
does not match.  The regex never needs backtracking here because after the
optional `(?::\d{2})?` group only `]` may follow and `:` ≠ `]`. -/
def matchMarker (l : List Char) : Option (List Char × List Char) :=
  match l with
  | '[' :: r =>
    let (d1, r1) := takeUpTo Char.isDigit 2 r
    if d1.isEmpty then none
    else
      match r1 with
      | ':' :: r2 =>
        let (d2, r3) := takeUpTo Char.isDigit 2 r2
        if d2.length ≠ 2 then none
        else
          let (opt, r4) :=
            match r3 with
            | ':' :: a :: b :: rest =>
              if a.isDigit && b.isDigit then (':' :: a :: [b], rest) else ([], r3)
            | _ => ([], r3)
          match r4 with
          | ']' :: rest => some (d1 ++ ':' :: d2 ++ opt, dropLeadingWs rest)
          | _ => none
      | _ => none
  | _ => none

/-- Does a line carry a leading bracketed time marker? -/
def hasMarker (line : String) : Bool := (matchMarker line.toList).isSome

/-- `transcriptText.split(/\n+/).map(l => l.trim()).filter(Boolean)`:
the nonempty trimmed lines.  (Splitting on single newlines and filtering
empties is extensionally the same as splitting on newline runs.) -/
def splitNonEmptyLines (s : String) : List String :=
  (((s.toList.splitOn '\n').map fun l => (trimWs l).asString)).filter (· ≠ "")

/-- An entry of the `segmentsMap`: `{start, texts}` (`start: null` for the
`"free"` entry). -/
structure SegEntry where
  start : Option ℤ
  texts : List String
deriving DecidableEq, Repr

/-- An output segment: `{start, label, text}` (`start` is `null`/absent). -/
structure Segment where
  start : Option ℤ
  label : String
  text : String
deriving DecidableEq, Repr

/-- JS `Map.prototype.get` on the association-list model. -/
def mapGet (m : List (String × SegEntry)) (key : String) : Option SegEntry :=
  (m.find? fun e => e.1 = key).map Prod.snd

/-- JS `Map.prototype.set` on the association-list model: updates the
existing key in place, else appends. -/
def mapSet (m : List (String × SegEntry)) (key : String) (v : SegEntry) :
    List (String × SegEntry) :=
  if m.any fun e => e.1 = key then
    m.map fun e => if e.1 = key then (key, v) else e
  else m ++ [(key, v)]

/-- The body of the `forEach` in `buildTranscriptSegments`
(src/frontend/src/App.jsx:1604-1621): a marker line is bucketed into fixed
180-second windows (`parseTimestampToSeconds(ts) ?? 0`), any other line
goes to the `"free"` entry. -/
def segStep (st : List (String × SegEntry) × Bool) (line : String) :
    List (String × SegEntry) × Bool :=
  match matchMarker line.toList with
  | some (tsChars, textChars) =>
    let seconds : ℚ :=
      match parseTimestampToSeconds (jstr tsChars.asString) with
      | .ok (.prim (.num q)) => q
      | _ => 0
    let bucket : ℤ := ⌊seconds / 180⌋
    let key := "bucket-" ++ toString bucket
    let entry := (mapGet st.1 key).getD { start := some (bucket * 180), texts := [] }
    (mapSet st.1 key { entry with texts := entry.texts ++ [textChars.asString] }, true)
  | none =>
    let free := (mapGet st.1 "free").getD { start := none, texts := [] }
    (mapSet st.1 "free" { free with texts := free.texts ++ [line] }, st.2)

/-- The chunking loop of the no-marker branch: every 4 lines
(`lines.slice(i, i+4).join(" ")`) become one segment labelled
`Section ⟨index+1⟩`, its text capped at 50 words. -/
def chunk4 : List String → ℕ → List Segment
  | [], _ => []
  | a :: b :: c :: d :: rest, k =>
    { start := none, label := "Section " ++ toString (k + 1),
      text := limitWords (" ".intercalate [a, b, c, d]) 50 } :: chunk4 rest (k + 1)
  | lines, k =>
    [{ start := none, label := "Section " ++ toString (k + 1),
       text := limitWords (" ".intercalate lines) 50 }]

/-- Ordering used by `sort((a, b) => (a.start ?? 0) - (b.start ?? 0))`. -/
def segLE (a b : SegEntry) : Prop := a.start.getD 0 ≤ b.start.getD 0

instance : DecidableRel segLE := fun a b =>
  inferInstanceAs (Decidable (a.start.getD 0 ≤ b.start.getD 0))

instance : IsTotal SegEntry segLE := ⟨fun _ _ => le_total _ _⟩

instance : IsTrans SegEntry segLE := ⟨fun _ _ _ => le_trans⟩

/-- The final `.map` of the timestamped branch: label each sorted entry
(`"⟨start⟩ - ⟨start+179⟩"` via the Codec, or `Section ⟨idx+1⟩` for the
time-less entry) and join and cap its texts. -/
def labelSegs (idx : ℕ) : List SegEntry → List Segment
  | [] => []
  | e :: rest =>
    { start := none,
      label :=
        match e.start with
        | some st => formatTimestamp (jnum (st : ℚ)) ++ " - " ++ formatTimestamp (jnum ((st : ℚ) + 179))
        | none => "Section " ++ toString (idx + 1),
      text := limitWords (" ".intercalate e.texts) 50 } :: labelSegs (idx + 1) rest

/-- Embeds `buildTranscriptSegments` (src/frontend/src/App.jsx:1595-1644). -/
def buildTranscriptSegments (transcriptText : String) : List Segment :=
  if transcriptText = "" then []
  else
    let lines := splitNonEmptyLines transcriptText
    if lines.isEmpty then []
    else
      let st := lines.foldl segStep ([], false)
      if !st.2 then chunk4 lines 0
      else labelSegs 0 ((st.1.map Prod.snd).insertionSort segLE)

/-! ## Player Sync Controller -/

/-- A command issued to a player integration. -/
inductive PlayerCmd where
  | seekTo (seconds : JSVal) (allowSeekAhead : Bool)
  | playVideo
  | postCommand (event : String) (func : String) (argSeconds : JSVal) (argFlag : Bool)
deriving DecidableEq, Repr

/-- The owned player handle (`playerRef.current`); `hasSeekToFn` models
`typeof playerRef.current.seekTo === "function"`. -/
structure Player where
  hasSeekToFn : Bool
deriving DecidableEq, Repr

/-- The embeddable frame (`document.getElementById("yt-player")`);
`hasContentWindow` models the `contentWindow?.` optional chain. -/
structure Frame where
  hasContentWindow : Bool
deriving DecidableEq, Repr

/-- Embeds `seekToTimestamp` (src/frontend/src/App.jsx:470-484), handle
mode: parse with `timestampToSeconds`; bail out (returning no commands)
when the result `== null`, when no player is mounted, or when the handle
has no `seekTo` function; otherwise `seekTo(seconds, true)` then
`playVideo()`. -/
def seekToTimestamp (ts : JSVal) (player : Option Player) : List PlayerCmd :=
  let seconds := timestampToSeconds ts
  match player with
  | none => []
  | some p =>
    if looseNull seconds || !p.hasSeekToFn then []
    else [.seekTo seconds true, .playVideo]

/-- Embeds `seekYouTubeIframe` (src/frontend/src/App.jsx:1574-1586),
message mode: no frame, or a frame without `contentWindow`, is a no-op;
otherwise the structured command is posted. -/
def seekYouTubeIframe (seconds : JSVal) (iframe : Option Frame) : List PlayerCmd :=
  match iframe with
  | none => []
  | some f =>
    if f.hasContentWindow then [.postCommand "command" "seekTo" seconds true]
    else []

/-- Embeds `handleMomentClick` (src/frontend/src/App.jsx:2194-2199), the
message-mode seek path: bail out without a loaded `video_id`; parse with
`parseTimestampToSeconds` (whose exception channel propagates); a `null`
parse is a no-op; otherwise forward to `seekYouTubeIframe`. -/
def handleMomentClick (ts : JSVal) (videoId : JSVal) (iframe : Option Frame) :
    Except String (List PlayerCmd) :=
  if !truthy videoId then .ok []
  else
    match parseTimestampToSeconds ts with
    | .error e => .error e
    | .ok seconds =>
      if looseNull seconds then .ok []
      else .ok (seekYouTubeIframe seconds iframe)

/-! ## Remaining spec-side definitions -/

/-- The format of the specification's words (for C4): `total = floor(seconds)`,
`minutes = floor(total/60)`, `secs = total % 60`, `hours = floor(minutes/60)`,
`mm = minutes % 60` and `ss = secs` zero-padded to two digits; `HH:MM:SS`
(hours zero-padded) when `hours > 0`, else `MM:SS`.  Stated with euclidean
division/remainder, which agree with all floor/`%` readings on the
nonnegative inputs the claim covers. -/
def specFormatClaim (seconds : ℚ) : String :=
  let total : ℤ := ⌊seconds⌋
  let minutes : ℤ := total.ediv 60
  let secs : ℤ := total.emod 60
  let hours : ℤ := minutes.ediv 60
  let mm := padChars2 (jsIntChars (minutes.emod 60))
  let ss := padChars2 (jsIntChars secs)
  if 0 < hours then (padChars2 (jsIntChars hours) ++ ':' :: mm ++ ':' :: ss).asString
  else (mm ++ ':' :: ss).asString

/-- The total number of items across a list of buckets. -/
def totalItems (gs : List TimeBucket) : ℕ := (gs.map (·.items.length)).sum

/-- The starts of a list of buckets. -/
def bucketStarts (gs : List TimeBucket) : List ℤ := gs.map (·.start)

/-! ## Lemmas: decimal digits and number printing -/

theorem digitChar_toNat {n : ℕ} (h : n < 10) : (digitChar n).toNat = 48 + n := by
  interval_cases n <;> rfl

theorem digitChar_isDigit {n : ℕ} (h : n < 10) : (digitChar n).isDigit = true := by
  interval_cases n <;> rfl

theorem digitsVal_append_singleton (l : List Char) (c : Char) :
    digitsVal (l ++ [c]) = 10 * digitsVal l + (c.toNat - 48) := by
  simp [digitsVal, List.foldl_append, Nat.mul_comm]

theorem natDigitsAux_spec :
    ∀ f n, n < 10 ^ f → f ≠ 0 →
      digitsVal (natDigitsAux f n) = n ∧ natDigitsAux f n ≠ [] ∧
        ∀ c ∈ natDigitsAux f n, c.isDigit = true := by
  intro f
  induction f with
  | zero => intro n _ hf; exact absurd rfl hf
  | succ f ih =>
    intro n hn _
    by_cases h10 : n < 10
    · refine ⟨?_, by simp [natDigitsAux, h10], ?_⟩
      · simp [natDigitsAux, h10, digitsVal, digitChar_toNat h10]
      · simp [natDigitsAux, h10, digitChar_isDigit h10]
    · have hf : f ≠ 0 := by
        rintro rfl
        norm_num at hn
        omega
      have hdiv : n / 10 < 10 ^ f := by
        rw [Nat.div_lt_iff_lt_mul (by norm_num)]
        calc n < 10 ^ (f + 1) := hn
        _ = 10 ^ f * 10 := by ring
      obtain ⟨ih1, ih2, ih3⟩ := ih (n / 10) hdiv hf
      have hmod : n % 10 < 10 := Nat.mod_lt _ (by norm_num)
      refine ⟨?_, by simp [natDigitsAux, h10], ?_⟩
      · rw [natDigitsAux]
        simp only [h10, if_false]
        rw [digitsVal_append_singleton, ih1, digitChar_toNat hmod]
        omega
      · intro c hc
        rw [natDigitsAux] at hc
        simp only [h10, if_false, List.mem_append, List.mem_singleton] at hc
        rcases hc with hc | rfl
        · exact ih3 c hc
        · exact digitChar_isDigit hmod

theorem natDigits_val (n : ℕ) : digitsVal (natDigits n) = n :=
  (natDigitsAux_spec (n + 1) n
    (lt_of_lt_of_le (Nat.lt_pow_self (by norm_num) n)
      (Nat.pow_le_pow_right (by norm_num) (Nat.le_succ n))) (Nat.succ_ne_zero n)).1

theorem natDigits_ne_nil (n : ℕ) : natDigits n ≠ [] :=
  (natDigitsAux_spec (n + 1) n
    (lt_of_lt_of_le (Nat.lt_pow_self (by norm_num) n)
      (Nat.pow_le_pow_right (by norm_num) (Nat.le_succ n))) (Nat.succ_ne_zero n)).2.1

theorem natDigits_all_digit (n : ℕ) : ∀ c ∈ natDigits n, c.isDigit = true :=
  (natDigitsAux_spec (n + 1) n
    (lt_of_lt_of_le (Nat.lt_pow_self (by norm_num) n)
      (Nat.pow_le_pow_right (by norm_num) (Nat.le_succ n))) (Nat.succ_ne_zero n)).2.2

theorem digitsVal_replicate_zero (k : ℕ) (l : List Char) :
    digitsVal (List.replicate k '0' ++ l) = digitsVal l := by
  induction k with
  | zero => simp
  | succ k ih =>
    rw [List.replicate_succ, List.cons_append]
    exact ih

theorem padChars2_val (l : List Char) : digitsVal (padChars2 l) = digitsVal l :=
  digitsVal_replicate_zero _ l

theorem padChars2_ne_nil (l : List Char) (h : l ≠ []) : padChars2 l ≠ [] := by
  simp [padChars2, h]

theorem padChars2_all_digit (l : List Char) (h : ∀ c ∈ l, c.isDigit = true) :
    ∀ c ∈ padChars2 l, c.isDigit = true := by
  intro c hc
  rcases List.mem_append.mp hc with hc | hc
  · rw [List.eq_of_mem_replicate hc]; rfl
  · exact h c hc

theorem jsIntChars_natCast (m : ℕ) : jsIntChars (m : ℤ) = natDigits m := by
  rw [jsIntChars, if_neg (by omega)]
  simp

/-! ## Lemmas: `Number`, `parseInt` and `split` on digit groups -/

theorem isDigit_not_ws {c : Char} (h : c.isDigit = true) : isWs c = false := by
  have hws : ∀ x ∈ jsWsChars, x.isDigit = false := by decide
  by_contra hw
  simp only [Bool.not_eq_false, isWs] at hw
  have hmem : c ∈ jsWsChars := by simpa using hw
  rw [hws c hmem] at h
  exact absurd h (by decide)

theorem readRadix_of_digits {l : List Char} (h : ∀ c ∈ l, c.isDigit = true) :
    readRadix l = none := by
  match l with
  | [] => rfl
  | [c] => rfl
  | c :: p :: ds =>
    have hp : p.isDigit = true := h p (by simp)
    have h1 : ¬(p = 'x' ∨ p = 'X') := by rintro (rfl | rfl) <;> exact absurd hp (by decide)
    have h2 : ¬(p = 'o' ∨ p = 'O') := by rintro (rfl | rfl) <;> exact absurd hp (by decide)
    have h3 : ¬(p = 'b' ∨ p = 'B') := by rintro (rfl | rfl) <;> exact absurd hp (by decide)
    by_cases hc : c = '0'
    · simp only [readRadix, if_neg (not_not_intro hc), if_neg h1, if_neg h2, if_neg h3]
    · simp only [readRadix, if_pos hc]

theorem dropWhile_eq_self_of_head {p : Char → Bool} {l : List Char}
    (h : ∀ c ∈ l, p c = false) : l.dropWhile p = l := by
  cases l with
  | nil => rfl
  | cons a t => rw [List.dropWhile_cons, h a (by simp)]; simp

theorem trimWs_eq_self {l : List Char} (h : ∀ c ∈ l, isWs c = false) : trimWs l = l := by
  rw [trimWs, dropWhile_eq_self_of_head h, dropWhile_eq_self_of_head ?_, List.reverse_reverse]
  intro c hc
  exact h c (List.mem_reverse.mp hc)

theorem readSign_digits {l : List Char} (h : ∀ c ∈ l, c.isDigit = true) :
    readSign l = (false, l) := by
  match l with
  | [] => rfl
  | c :: t =>
    have hc : c.isDigit = true := h c (by simp)
    have h1 : c ≠ '-' := by rintro rfl; exact absurd hc (by decide)
    have h2 : c ≠ '+' := by rintro rfl; exact absurd hc (by decide)
    rw [readSign, if_neg h1, if_neg h2]

theorem jsNumberOfChars_digits {l : List Char} (hne : l ≠ [])
    (h : ∀ c ∈ l, c.isDigit = true) : jsNumberOfChars l = some (digitsVal l) := by
  have htake : l.takeWhile Char.isDigit = l := List.takeWhile_eq_self_iff.mpr h
  have hdrop : l.dropWhile Char.isDigit = [] := List.dropWhile_eq_nil_iff.mpr (fun _ hc => h _ hc)
  rw [jsNumberOfChars, trimWs_eq_self (fun c hc => isDigit_not_ws (h c hc))]
  rw [if_neg (by simpa using hne), readRadix_of_digits h, readSign_digits h]
  simp only [readDecimal, readMantissa, htake, hdrop]
  rw [if_neg (by simpa using hne)]
  simp [readExponent]

theorem splitOnChar_of_not_mem {sep : Char} : ∀ {l : List Char}, sep ∉ l →
    splitOnChar sep l = [l] := by
  intro l
  induction l with
  | nil => intro _; rfl
  | cons c t ih =>
    intro h
    rw [splitOnChar, if_neg (by rintro rfl; exact h (by simp)), ih (fun hm => h (by simp [hm]))]

theorem splitOnChar_append {sep : Char} {b : List Char} : ∀ {a : List Char}, sep ∉ a →
    splitOnChar sep (a ++ sep :: b) = a :: splitOnChar sep b := by
  intro a
  induction a with
  | nil => intro _; simp [splitOnChar]
  | cons c t ih =>
    intro h
    rw [List.cons_append, splitOnChar, if_neg (by rintro rfl; exact h (by simp)),
      ih (fun hm => h (by simp [hm]))]

theorem not_isDigitRun_of_colon {l : List Char} (h : ':' ∈ l) : isDigitRun l = false := by
  rw [isDigitRun]
  have hall : l.all Char.isDigit = false := by
    by_contra hb
    simp only [Bool.not_eq_false, List.all_eq_true] at hb
    exact absurd (hb ':' h) (by decide)
  simp [hall]

/-! ## Lemmas: parsing the formatted output -/

/-- `(l.asString).toList = l`. -/
theorem toList_asString (l : List Char) : (List.asString l).toList = l := rfl

theorem parse_two_groups {p1 p2 : List Char} (h1 : p1 ≠ []) (h2 : p2 ≠ [])
    (d1 : ∀ c ∈ p1, c.isDigit = true) (d2 : ∀ c ∈ p2, c.isDigit = true) :
    timestampToSeconds (jstr (List.asString (p1 ++ ':' :: p2))) =
      jnum ((digitsVal p1 : ℚ) * 60 + (digitsVal p2 : ℚ)) := by
  have hm1 : ':' ∉ p1 := fun hm => absurd (d1 ':' hm) (by decide)
  have hm2 : ':' ∉ p2 := fun hm => absurd (d2 ':' hm) (by decide)
  rw [timestampToSeconds]
  rw [toList_asString]
  rw [if_neg ?hdr]
  case hdr =>
    rw [not_isDigitRun_of_colon (by simp)]
    exact Bool.false_ne_true
  rw [splitOnChar_append hm1, splitOnChar_of_not_mem hm2]
  rw [List.map_cons, List.map_singleton, jsNumberOfChars_digits h1 d1,
    jsNumberOfChars_digits h2 d2]
  rfl

theorem parse_three_groups {p1 p2 p3 : List Char} (h1 : p1 ≠ []) (h2 : p2 ≠ [])
    (h3 : p3 ≠ []) (d1 : ∀ c ∈ p1, c.isDigit = true) (d2 : ∀ c ∈ p2, c.isDigit = true)
    (d3 : ∀ c ∈ p3, c.isDigit = true) :
    timestampToSeconds (jstr (List.asString (p1 ++ ':' :: p2 ++ ':' :: p3))) =
      jnum ((digitsVal p1 : ℚ) * 3600 + (digitsVal p2 : ℚ) * 60 + (digitsVal p3 : ℚ)) := by
  have hm1 : ':' ∉ p1 := fun hm => absurd (d1 ':' hm) (by decide)
  have hm2 : ':' ∉ p2 := fun hm => absurd (d2 ':' hm) (by decide)
  have hm3 : ':' ∉ p3 := fun hm => absurd (d3 ':' hm) (by decide)
  rw [timestampToSeconds]
  rw [toList_asString]
  rw [if_neg ?hdr]
  case hdr =>
    rw [not_isDigitRun_of_colon (by simp)]
    exact Bool.false_ne_true
  rw [List.append_assoc, List.cons_append, splitOnChar_append hm1, splitOnChar_append hm2,
    splitOnChar_of_not_mem hm3]
  rw [List.map_cons, List.map_cons, List.map_singleton, jsNumberOfChars_digits h1 d1,
    jsNumberOfChars_digits h2 d2, jsNumberOfChars_digits h3 d3]
  rfl

/-! ## Lemmas: `formatTimestamp` on a natural number -/

theorem natCast_fdiv_sixty (m : ℕ) : ((m : ℤ)).fdiv (60 : ℤ) = ((m / 60 : ℕ) : ℤ) := by
  cases m with
  | zero => simp [Int.fdiv]
  | succ k => rfl

theorem natCast_tmod_sixty (m : ℕ) : ((m : ℤ)).tmod (60 : ℤ) = ((m % 60 : ℕ) : ℤ) := by
  cases m with
  | zero => rfl
  | succ k => rfl

theorem formatTimestamp_natCast (n : ℕ) :
    formatTimestamp (jnum (n : ℚ)) =
      if n / 60 / 60 ≠ 0 then
        (padChars2 (natDigits (n / 60 / 60)) ++ ':' :: padChars2 (natDigits (n / 60 % 60)) ++
          ':' :: padChars2 (natDigits (n % 60))).asString
      else
        (padChars2 (natDigits (n / 60 % 60)) ++ ':' :: padChars2 (natDigits (n % 60))).asString := by
  rw [formatTimestamp]
  rw [Int.floor_natCast, natCast_fdiv_sixty, natCast_fdiv_sixty, natCast_tmod_sixty,
    natCast_tmod_sixty, jsIntChars_natCast, jsIntChars_natCast, jsIntChars_natCast]
  by_cases h : n / 60 / 60 = 0
  · rw [if_neg (by simp [h]), if_neg (by simp [h])]
  · rw [if_pos (Nat.cast_ne_zero.mpr h), if_pos h]

/-- C2: Timestamp Codec round-trip — for every integer `n ≥ 0` (a natural
number), parsing the text produced by formatting `n` returns `n`:
`parse(format(n)) == n`. -/
theorem C2_roundtrip (n : ℕ) :
    timestampToSeconds (jstr (formatTimestamp (jnum (n : ℚ)))) = jnum ((n : ℚ)) := by
  rw [formatTimestamp_natCast]
  by_cases h : n / 60 / 60 = 0
  · rw [if_neg (by simpa using h)]
    rw [parse_two_groups (padChars2_ne_nil _ (natDigits_ne_nil _))
      (padChars2_ne_nil _ (natDigits_ne_nil _))
      (padChars2_all_digit _ (natDigits_all_digit _))
      (padChars2_all_digit _ (natDigits_all_digit _))]
    rw [padChars2_val, padChars2_val, natDigits_val, natDigits_val]
    congr 2
    have h60 : n / 60 % 60 = n / 60 := by omega
    rw [h60]
    have hsplit : 60 * (n / 60) + n % 60 = n := by omega
    conv_rhs => rw [← hsplit]
    push_cast
    ring
  · rw [if_pos h]
    rw [parse_three_groups (padChars2_ne_nil _ (natDigits_ne_nil _))
      (padChars2_ne_nil _ (natDigits_ne_nil _)) (padChars2_ne_nil _ (natDigits_ne_nil _))
      (padChars2_all_digit _ (natDigits_all_digit _))
      (padChars2_all_digit _ (natDigits_all_digit _))
      (padChars2_all_digit _ (natDigits_all_digit _))]
    rw [padChars2_val, padChars2_val, padChars2_val, natDigits_val, natDigits_val,
      natDigits_val]
    congr 2
    have key : (n / 60 / 60) * 3600 + (n / 60 % 60) * 60 + n % 60 = n := by omega
    conv_rhs => rw [← key]
    push_cast
    ring

/-! ## Lemmas: mind-map layout -/

theorem dupNonRoot_append (a b : List LayoutNode) :
    dupNonRoot (a ++ b) = dupNonRoot a ++ dupNonRoot b := by
  induction a with
  | nil => rfl
  | cons e rest ih =>
    cases hp : e.parent <;> simp [dupNonRoot, hp, ih]

mutual
theorem layoutTree_eq_spec :
    ∀ (node : MindmapNode) (x y : ℚ) (level : ℕ) (out : List LayoutNode),
      layoutTree node x y level out = out ++ dupNonRoot (layoutSpec none node x y)
  | .mk nid ntitle children, x, y, level, out => by
    rw [layoutTree, layoutSpec,
      layoutTreeChildren_eq_spec children nid x y children.length level 0]
    simp [dupNonRoot]
termination_by node _ _ _ _ => sizeOf node

theorem layoutTreeChildren_eq_spec :
    ∀ (cs : List MindmapNode) (pid : ℕ) (x y : ℚ) (k : ℕ) (level i : ℕ)
      (out : List LayoutNode),
      layoutTreeChildren pid (x - ((k : ℚ) - 1) * (220 / 2)) (y + 120) level i cs out =
        out ++ dupNonRoot (layoutSpecChildren pid x y k i cs)
  | [], pid, x, y, k, level, i, out => by
    rw [layoutTreeChildren, layoutSpecChildren]
    simp [dupNonRoot]
  | c :: rest, pid, x, y, k, level, i, out => by
    rw [layoutTreeChildren,
      layoutTree_eq_spec c (x - ((k : ℚ) - 1) * (220 / 2) + (i : ℚ) * 220) (y + 120)
        (level + 1),
      layoutTreeChildren_eq_spec rest pid x y k level (i + 1), layoutSpecChildren,
      dupNonRoot_append]
    cases c with
    | mk cid ctitle cchildren =>
      rw [layoutSpec, layoutSpec]
      simp [dupNonRoot, MindmapNode.id, MindmapNode.title]
termination_by cs _ _ _ _ _ _ _ => sizeOf cs
end

mutual
theorem layoutSpec_length :
    ∀ (parent : Option ℕ) (node : MindmapNode) (x y : ℚ),
      (layoutSpec parent node x y).length = countNodes node
  | parent, .mk nid ntitle children, x, y => by
    rw [layoutSpec, countNodes]
    simp [layoutSpecChildren_length children nid x y children.length 0]
    omega
termination_by _ node _ _ => sizeOf node

theorem layoutSpecChildren_length :
    ∀ (cs : List MindmapNode) (pid : ℕ) (x y : ℚ) (k i : ℕ),
      (layoutSpecChildren pid x y k i cs).length = countNodesList cs
  | [], _, _, _, _, _ => by simp [layoutSpecChildren, countNodesList]
  | c :: rest, pid, x, y, k, i => by
    rw [layoutSpecChildren, countNodesList]
    simp [layoutSpec_length (some pid) c, layoutSpecChildren_length rest pid x y k (i + 1)]
termination_by cs _ _ _ _ _ => sizeOf cs
end

/-! ## Claims C1 and C1 counterexample -/

/-- C1 counterexample: for the two-node tree `Root{children:[A]}` the layout
output has 3 entries, not one `LayoutNode` per tree node (2): the child is
pushed twice, once by its parent's loop and once by its own recursive call. -/
theorem C1_counterexample :
    (layoutTree (.mk 0 "Root" [.mk 1 "A" []]) 0 0 0 []).length ≠
      countNodes (.mk 0 "Root" [.mk 1 "A" []]) := by
  have h1 : layoutTree (.mk 0 "Root" [.mk 1 "A" []]) 0 0 0 [] =
      [{ id := 0, title := "Root", x := 0, y := 0, parent := none },
       { id := 1, title := "A", x := 0, y := 120, parent := some 0 },
       { id := 1, title := "A", x := 0, y := 120, parent := none }] := by
    norm_num [layoutTree, layoutTreeChildren, MindmapNode.id, MindmapNode.title]
  rw [h1]
  norm_num [countNodes, countNodesList]

/-- C1 (amended): the layout output appends to the accumulator the pre-order
node sequence of the claim — `layoutSpec` places the root at `(x, y)` and the
`i`-th of the `k` children of a node at `(x,y)` at
`(x - (k-1)*220/2 + i*220, y + 120)`, one entry per node with its immediate
parent's id (the root's parent `none`) — except that every non-root entry
appears twice in a row: first as recorded by its parent's loop (carrying the
parent id), then as re-pushed by its own recursive call with parent `none`
(`dupNonRoot`).  `layoutSpec` itself has exactly one entry per tree node. -/
theorem C1_amended (node : MindmapNode) (x y : ℚ) (level : ℕ) (out : List LayoutNode) :
    layoutTree node x y level out = out ++ dupNonRoot (layoutSpec none node x y) ∧
      (layoutSpec none node x y).length = countNodes node :=
  ⟨layoutTree_eq_spec node x y level out, layoutSpec_length none node x y⟩

/-! ## Claim C3: parse -/

/-- C3 counterexample: `"1.5:30"` contains the group `"1.5"`, which is not
parseable as an integer, yet `timestampToSeconds` does not return `null`: the
fractional group participates in the fold and the result is `120`. -/
theorem C3_counterexample :
    timestampToSeconds (jstr "1.5:30") = jnum 120 ∧
      timestampToSeconds (jstr "1.5:30") ≠ jnull := by
  have h : timestampToSeconds (jstr "1.5:30") = jnum 120 := by
    norm_num +decide [timestampToSeconds, isDigitRun, splitOnChar, jsNumberOfChars, trimWs,
      isWs, jsWsChars, readSign, readRadix, readDecimal, readMantissa, readExponent,
      show digitsVal ['1'] = 1 from rfl,
      show digitsVal ['5'] = 5 from rfl, show digitsVal ['3','0'] = 30 from rfl]
  exact ⟨h, by rw [h]; simp⟩

/-- C3 (amended): full characterisation of `timestampToSeconds`.
`null`/`undefined`/booleans/arrays give `null`; a number (including `NaN`)
is returned unchanged, fractional values not rounded; a digit-only string is
its integer value; a string splitting on `":"` into exactly 2 or 3 groups
that are all JS-numeric — including fractional (`"1.5"`), exponent (`"1e3"`)
and hex/octal/binary (`"0x10"`) groups, which participate in the fold rather
than yielding `none` — is folded left to right as `acc = acc*60 + part`;
any other string — a `NaN` group, or a group count other than 2 or 3 (in
particular a single group that is not all digits, and 4 or more groups) —
yields `null`, where the `NaN`-case conjunct is stated for strings none of
whose groups is an `Infinity` literal, the one numeric form outside the
rational value model.  The function is total (never throws). -/
theorem C3_amended :
    timestampToSeconds jnull = jnull ∧
    timestampToSeconds jundefVal = jnull ∧
    (∀ q : ℚ, timestampToSeconds (jnum q) = jnum q) ∧
    timestampToSeconds jnan = jnan ∧
    (∀ b, timestampToSeconds (jbool b) = jnull) ∧
    (∀ l, timestampToSeconds (.arr l) = jnull) ∧
    (∀ s : String, isDigitRun s.toList = true →
      timestampToSeconds (jstr s) = jnum (digitsVal s.toList)) ∧
    (∀ (s : String) (parts : List ℚ), isDigitRun s.toList = false →
      (splitOnChar ':' s.toList).map jsNumberOfChars = parts.map some →
      parts.length = 2 ∨ parts.length = 3 →
      timestampToSeconds (jstr s) = jnum (parts.foldl (fun a p => a * 60 + p) 0)) ∧
    (∀ s : String, isDigitRun s.toList = false →
      (∀ g ∈ splitOnChar ':' s.toList, isInfinityGroup g = false) →
      (((splitOnChar ':' s.toList).map jsNumberOfChars).any Option.isNone = true ∨
        ¬((splitOnChar ':' s.toList).length = 2 ∨ (splitOnChar ':' s.toList).length = 3)) →
      timestampToSeconds (jstr s) = jnull) := by
  refine ⟨rfl, rfl, fun q => rfl, rfl, fun b => rfl, fun l => rfl, ?_, ?_, ?_⟩
  · intro s h
    rw [timestampToSeconds, if_pos h]
  · intro s parts hrun hmap hlen
    rw [timestampToSeconds, if_neg (by simpa using hrun), hmap]
    rcases parts with _ | ⟨a, _ | ⟨b, _ | ⟨c, _ | ⟨d, rest⟩⟩⟩⟩
    · simp at hlen
    · simp at hlen
    · simp only [List.map_cons, List.map_nil, List.any_cons, List.any_nil,
        Option.isNone_some, Bool.or_self, Bool.false_eq_true, if_false, List.foldl_cons,
        List.foldl_nil]
      congr 1
      ring
    · simp only [List.map_cons, List.map_nil, List.any_cons, List.any_nil,
        Option.isNone_some, Bool.or_self, Bool.false_eq_true, if_false, List.foldl_cons,
        List.foldl_nil]
      congr 1
      ring
    · simp only [List.length_cons] at hlen
      omega
  · intro s hrun _hinf hbad
    rw [timestampToSeconds, if_neg (by simpa using hrun)]
    rcases hbad with hany | hlen
    · rw [if_pos hany]
    · by_cases hany : ((splitOnChar ':' s.toList).map jsNumberOfChars).any Option.isNone = true
      · rw [if_pos hany]
      · rw [if_neg hany]
        push_neg at hlen
        rcases hgs : splitOnChar ':' s.toList with _ | ⟨g0, _ | ⟨g1, _ | ⟨g2, _ | gs⟩⟩⟩
        · rfl
        · split
          · next heq => simp at heq
          · next heq => simp at heq
          · rfl
        · exact absurd (by rw [hgs]; rfl) hlen.1
        · exact absurd (by rw [hgs]; rfl) hlen.2
        · split
          · next heq => simp at heq
          · next heq => simp at heq
          · rfl

/-! ## Claim C4: format -/

/-- C4 counterexample: a negative input is not formatted to the empty
string: `format(-5)` is `"-1:-1:-5"`. -/
theorem C4_counterexample :
    formatTimestamp (jnum (-5)) = "-1:-1:-5" ∧ formatTimestamp (jnum (-5)) ≠ "" := by
  have h : formatTimestamp (jnum (-5)) = "-1:-1:-5" := by
    norm_num [formatTimestamp]
    decide
  exact ⟨h, by rw [h]; decide⟩

theorem natCast_ediv_sixty (m : ℕ) : ((m : ℤ)).ediv (60 : ℤ) = ((m / 60 : ℕ) : ℤ) := by
  cases m with
  | zero => rfl
  | succ k => rfl

theorem natCast_emod_sixty (m : ℕ) : ((m : ℤ)).emod (60 : ℤ) = ((m % 60 : ℕ) : ℤ) := by
  cases m with
  | zero => rfl
  | succ k => rfl

/-- C4 (amended): `null`/missing input yields `""` and the claimed
`HH:MM:SS` / `MM:SS` arithmetic (`specFormatClaim`, the claim's own words)
is correct for every nonnegative number — including the claimed examples —
but a negative input is fed through the same truncating arithmetic instead
of yielding `""` (e.g. `format(-5) = "-1:-1:-5"`). -/
theorem C4_amended :
    formatTimestamp jnull = "" ∧ formatTimestamp jundefVal = "" ∧
    (∀ q : ℚ, 0 ≤ q → formatTimestamp (jnum q) = specFormatClaim q) ∧
    formatTimestamp (jnum 65) = "01:05" ∧ formatTimestamp (jnum 3723) = "01:02:03" ∧
    formatTimestamp (jnum (-5)) = "-1:-1:-5" := by
  refine ⟨rfl, rfl, ?_, ?_, ?_, C4_counterexample.1⟩
  · intro q h
    rw [formatTimestamp, specFormatClaim]
    obtain ⟨n, hn⟩ : ∃ n : ℕ, ⌊q⌋ = (n : ℤ) :=
      ⟨⌊q⌋.toNat, (Int.toNat_of_nonneg (Int.floor_nonneg.mpr h)).symm⟩
    rw [hn, natCast_fdiv_sixty, natCast_tmod_sixty, natCast_fdiv_sixty, natCast_tmod_sixty,
      natCast_ediv_sixty, natCast_emod_sixty, natCast_ediv_sixty, natCast_emod_sixty]
    by_cases hz : n / 60 / 60 = 0
    · rw [if_neg (by simp [hz]), if_neg (by simp [hz])]
    · rw [if_pos (Nat.cast_ne_zero.mpr hz),
        if_pos (by exact_mod_cast Nat.pos_of_ne_zero hz)]
  · norm_num [formatTimestamp]
    decide
  · norm_num [formatTimestamp]
    decide

/-! ## Claim C5: toSequence -/

/-- C5 counterexample: `toSequence(0)` is `[]`, not `[0]` — the code tests
JavaScript truthiness, not only null/undefined, so the falsy scalar `0` maps
to the empty sequence. -/
theorem C5_counterexample :
    safeArray (jnum 0) = [] ∧ safeArray (jnum 0) ≠ [jnum 0] := by
  constructor
  · simp [safeArray, truthy]
  · intro h
    rw [show safeArray (jnum 0) = [] from by simp [safeArray, truthy]] at h
    exact List.cons_ne_nil _ _ h.symm

/-- C5 (amended): an array is returned as-is and `null`/`undefined` yield
`[]`; but the wrapping test is JavaScript truthiness, so every falsy scalar
(`false`, `0`, `NaN`, `""`) also yields `[]` while every truthy non-array
value wraps as `[v]`. -/
theorem C5_amended :
    (∀ l, safeArray (.arr l) = l.map .prim) ∧
    safeArray jnull = [] ∧ safeArray jundefVal = [] ∧ safeArray (jbool false) = [] ∧
    safeArray (jnum 0) = [] ∧ safeArray jnan = [] ∧ safeArray (jstr "") = [] ∧
    (∀ b : Bool, b ≠ false → safeArray (jbool b) = [jbool b]) ∧
    (∀ q : ℚ, q ≠ 0 → safeArray (jnum q) = [jnum q]) ∧
    (∀ s : String, s ≠ "" → safeArray (jstr s) = [jstr s]) := by
  refine ⟨fun l => rfl, rfl, rfl, rfl, ?_, rfl, ?_, ?_, ?_, ?_⟩
  · simp [safeArray, truthy]
  · simp [safeArray, truthy]
  · intro b hb
    simp [safeArray, truthy, hb]
  · intro q hq
    simp [safeArray, truthy, hq]
  · intro s hs
    simp [safeArray, truthy, hs]

/-- C3 witness: the amended parse characterisation applied at `"125"`, at
`"02:05"`, at the exponent-group input `"1e3:30"` (Number("1e3") = 1000, so
the fold yields 60030) and at the non-numeric input `"x:y"`. -/
theorem C3_witness :
    isDigitRun "125".toList = true ∧ timestampToSeconds (jstr "125") = jnum 125 ∧
      timestampToSeconds (jstr "02:05") = jnum 125 ∧
      timestampToSeconds (jstr "1e3:30") = jnum 60030 ∧
      timestampToSeconds (jstr "x:y") = jnull := by
  refine ⟨by decide, ?_, ?_, ?_, ?_⟩
  · have h := C3_amended.2.2.2.2.2.2.1 "125" (by decide)
    rw [h]
    norm_num [show digitsVal ['1', '2', '5'] = 125 from rfl,
      show digitsVal "125".toList = 125 from rfl]
  · have h := C3_amended.2.2.2.2.2.2.2.1 "02:05" [2, 5] (by decide) ?hmap (by norm_num)
    · rw [h]
      norm_num
    case hmap =>
      norm_num +decide [splitOnChar, jsNumberOfChars, trimWs, isWs, jsWsChars, readSign,
        readRadix, readDecimal, readMantissa, readExponent,
        show digitsVal ['0','2'] = 2 from rfl, show digitsVal ['0','5'] = 5 from rfl]
  · have h := C3_amended.2.2.2.2.2.2.2.1 "1e3:30" [1000, 30] (by decide) ?hmap2 (by norm_num)
    · rw [h]
      norm_num
    case hmap2 =>
      norm_num +decide [splitOnChar, jsNumberOfChars, trimWs, isWs, jsWsChars, readSign,
        readRadix, readDecimal, readMantissa, readExponent,
        show digitsVal ['1'] = 1 from rfl, show digitsVal ['3'] = 3 from rfl,
        show digitsVal ['3','0'] = 30 from rfl]
  · exact C3_amended.2.2.2.2.2.2.2.2 "x:y" (by decide) (by decide) (Or.inl (by decide))

/-- C4 witness: the amended format characterisation applied at `125`. -/
theorem C4_witness :
    (0 : ℚ) ≤ 125 ∧ formatTimestamp (jnum 125) = specFormatClaim 125 ∧
      specFormatClaim 125 = "02:05" := by
  refine ⟨by norm_num, C4_amended.2.2.1 125 (by norm_num), ?_⟩
  norm_num [specFormatClaim]
  decide

/-- C5 witness: the amended toSequence characterisation applied at `"x"`. -/
theorem C5_witness : ("x" : String) ≠ "" ∧ safeArray (jstr "x") = [jstr "x"] :=
  ⟨by decide, C5_amended.2.2.2.2.2.2.2.2.2 "x" (by decide)⟩

/-! ## Claim C9: zoom clamp -/

theorem wheelUpdate_mem_bounds (d t : ℚ) :
    (0.4 : ℚ) ≤ wheelUpdate d t ∧ wheelUpdate d t ≤ 2.5 := by
  constructor
  · exact le_min (by norm_num) (le_max_left _ _)
  · exact min_le_left _ _

theorem wheelUpdate_down {s : ℚ} (d : ℚ) (hs : s ≤ 2.5) (hd : 0 < d) :
    wheelUpdate d s = max 0.4 (s - 0.1) := by
  rw [wheelUpdate, if_pos hd]
  rw [min_eq_right (max_le (by norm_num) (by linarith))]
  ring_nf

theorem wheelUpdate_up {s : ℚ} (d : ℚ) (hs : 0.4 ≤ s) (hd : d ≤ 0) :
    wheelUpdate d s = min 2.5 (s + 0.1) := by
  rw [wheelUpdate, if_neg (by linarith)]
  rw [max_eq_right (by linarith)]

theorem iter_wheel_down (n : ℕ) :
    ∀ s : ℚ, 0.4 ≤ s → s ≤ 2.5 →
      (wheelUpdate 1)^[n] s = max 0.4 (s - n / 10) := by
  induction n with
  | zero =>
    intro s h1 _
    simp [max_eq_right h1]
  | succ n ih =>
    intro s h1 h2
    rw [Function.iterate_succ_apply, wheelUpdate_down 1 h2 one_pos]
    rw [ih _ (le_max_left _ _) (max_le (by norm_num) (by linarith))]
    push_cast
    have hn0 : (0 : ℚ) ≤ (n : ℚ) := Nat.cast_nonneg n
    rcases le_total (s - 0.1) 0.4 with hc | hc
    · rw [max_eq_left hc, max_eq_left (by linarith), max_eq_left (by linarith)]
    · rw [max_eq_right hc]
      congr 1
      ring

theorem iter_wheel_up (n : ℕ) :
    ∀ s : ℚ, 0.4 ≤ s → s ≤ 2.5 →
      (wheelUpdate (-1))^[n] s = min 2.5 (s + n / 10) := by
  induction n with
  | zero =>
    intro s _ h2
    simp [min_eq_right h2]
  | succ n ih =>
    intro s h1 h2
    rw [Function.iterate_succ_apply, wheelUpdate_up (-1) h1 (by norm_num)]
    rw [ih _ (le_min (by norm_num) (by linarith)) (min_le_left _ _)]
    push_cast
    have hn0 : (0 : ℚ) ≤ (n : ℚ) := Nat.cast_nonneg n
    rcases le_total 2.5 (s + 0.1) with hc | hc
    · rw [min_eq_left hc, min_eq_left (by linarith), min_eq_left (by linarith)]
    · rw [min_eq_right hc]
      congr 1
      ring

/-- C9: starting from any zoom scale within `[0.4, 2.5]`, a wheel event with
positive delta steps the scale down by `0.1` (clamped below at `0.4`) and one
with non-positive delta steps it up by `0.1` (clamped above at `2.5`); after
any finite sequence of wheel events the scale remains within `[0.4, 2.5]`;
and 21 or more wheel-down (resp. wheel-up) events from anywhere in the range
pin the scale at exactly `0.4` (resp. `2.5`). -/
theorem C9_zoom_clamp :
    (∀ s : ℚ, 0.4 ≤ s → s ≤ 2.5 → ∀ deltas : List ℚ,
      0.4 ≤ deltas.foldl (fun t d => wheelUpdate d t) s ∧
        deltas.foldl (fun t d => wheelUpdate d t) s ≤ 2.5) ∧
    (∀ s d : ℚ, s ≤ 2.5 → 0 < d → wheelUpdate d s = max 0.4 (s - 0.1)) ∧
    (∀ s d : ℚ, 0.4 ≤ s → d ≤ 0 → wheelUpdate d s = min 2.5 (s + 0.1)) ∧
    (∀ s : ℚ, 0.4 ≤ s → s ≤ 2.5 → ∀ n : ℕ, 21 ≤ n → (wheelUpdate 1)^[n] s = 0.4) ∧
    (∀ s : ℚ, 0.4 ≤ s → s ≤ 2.5 → ∀ n : ℕ, 21 ≤ n → (wheelUpdate (-1))^[n] s = 2.5) := by
  refine ⟨?_, fun s d h2 hd => wheelUpdate_down d h2 hd,
    fun s d h1 hd => wheelUpdate_up d h1 hd, ?_, ?_⟩
  · intro s h1 h2 deltas
    induction deltas generalizing s with
    | nil => exact ⟨h1, h2⟩
    | cons d rest ih =>
      rw [List.foldl_cons]
      exact ih _ (wheelUpdate_mem_bounds d s).1 (wheelUpdate_mem_bounds d s).2
  · intro s h1 h2 n hn
    rw [iter_wheel_down n s h1 h2, max_eq_left]
    have h21 : (21 : ℚ) ≤ (n : ℚ) := by exact_mod_cast hn
    linarith
  · intro s h1 h2 n hn
    rw [iter_wheel_up n s h1 h2, min_eq_left]
    have h21 : (21 : ℚ) ≤ (n : ℚ) := by exact_mod_cast hn
    linarith

/-- C9 witness: the clamp theorem applied at scale `1`: 21 wheel-downs pin
the scale at `0.4`, 21 wheel-ups pin it at `2.5`, and a mixed finite wheel
sequence stays within bounds. -/
theorem C9_witness :
    (wheelUpdate 1)^[21] 1 = 0.4 ∧ (wheelUpdate (-1))^[21] 1 = 2.5 ∧
      (0.4 ≤ [(1 : ℚ), -1, 1].foldl (fun t d => wheelUpdate d t) 1 ∧
        [(1 : ℚ), -1, 1].foldl (fun t d => wheelUpdate d t) 1 ≤ 2.5) :=
  ⟨C9_zoom_clamp.2.2.2.1 1 (by norm_num) (by norm_num) 21 le_rfl,
   C9_zoom_clamp.2.2.2.2 1 (by norm_num) (by norm_num) 21 le_rfl,
   C9_zoom_clamp.1 1 (by norm_num) (by norm_num) [1, -1, 1]⟩

/-! ## Claim C8: seek -/

theorem looseNull_num (q : ℚ) : looseNull (jnum q) = false := rfl

/-- C8: (handle mode, `seekToTimestamp`) a `null` parse, a missing player,
or a handle without a `seekTo` function issues no command; a numeric parse
with a mounted handle issues exactly `seekTo(seconds, true)` then
`playVideo()`.  (Message mode, `handleMomentClick`/`seekYouTubeIframe`) with
no frame mounted, or a `null` parse, no command is posted and no exception
escapes (`Except.ok []`); a successful numeric parse with a loaded video id
and a mounted frame posts exactly
`{event:"command", func:"seekTo", args:[seconds, true]}`.  In particular
`seek("not-a-time")` is a silent no-op on both integrations. -/
theorem C8_seek :
    (∀ (ts : JSVal) (player : Option Player), timestampToSeconds ts = jnull →
      seekToTimestamp ts player = []) ∧
    (∀ ts : JSVal, seekToTimestamp ts none = []) ∧
    (∀ (ts : JSVal) (p : Player), p.hasSeekToFn = false → seekToTimestamp ts (some p) = []) ∧
    (∀ (ts : JSVal) (secs : ℚ), timestampToSeconds ts = jnum secs →
      seekToTimestamp ts (some { hasSeekToFn := true }) =
        [.seekTo (jnum secs) true, .playVideo]) ∧
    (∀ (ts videoId : JSVal) (secs : JSVal), parseTimestampToSeconds ts = .ok secs →
      handleMomentClick ts videoId none = .ok []) ∧
    (∀ (ts videoId : JSVal) (iframe : Option Frame), parseTimestampToSeconds ts = .ok jnull →
      handleMomentClick ts videoId iframe = .ok []) ∧
    (∀ (ts videoId : JSVal) (secs : ℚ), truthy videoId = true →
      parseTimestampToSeconds ts = .ok (jnum secs) →
      handleMomentClick ts videoId (some { hasContentWindow := true }) =
        .ok [.postCommand "command" "seekTo" (jnum secs) true]) ∧
    (∀ player, seekToTimestamp (jstr "not-a-time") player = []) ∧
    (∀ videoId iframe, handleMomentClick (jstr "not-a-time") videoId iframe = .ok []) := by
  have hts : timestampToSeconds (jstr "not-a-time") = jnull := by
    norm_num +decide [timestampToSeconds, isDigitRun, splitOnChar, jsNumberOfChars, trimWs,
      isWs, jsWsChars, readSign, readRadix, readDecimal, readMantissa, readExponent]
  have hpts : parseTimestampToSeconds (jstr "not-a-time") = .ok jnull := by
    norm_num +decide [parseTimestampToSeconds, truthy, splitOnChar, jsParseIntChars,
      dropLeadingWs, isWs, readSign]
  refine ⟨?_, ?_, ?_, ?_, ?_, ?_, ?_, ?_, ?_⟩
  · intro ts player h
    cases player with
    | none => simp [seekToTimestamp]
    | some p => simp [seekToTimestamp, h, looseNull]
  · intro ts
    simp [seekToTimestamp]
  · intro ts p hp
    simp [seekToTimestamp, hp]
  · intro ts secs h
    simp [seekToTimestamp, h, looseNull_num]
  · intro ts videoId secs h
    by_cases hv : truthy videoId = true
    · by_cases hn : looseNull secs = true
      · simp [handleMomentClick, hv, h, hn]
      · simp [handleMomentClick, hv, h, hn, seekYouTubeIframe]
    · simp [handleMomentClick, hv]
  · intro ts videoId iframe h
    by_cases hv : truthy videoId = true
    · simp [handleMomentClick, hv, h, looseNull]
    · simp [handleMomentClick, hv]
  · intro ts videoId secs hv h
    simp [handleMomentClick, hv, h, looseNull_num, seekYouTubeIframe]
  · intro player
    cases player with
    | none => simp [seekToTimestamp]
    | some p => simp [seekToTimestamp, hts, looseNull]
  · intro videoId iframe
    by_cases hv : truthy videoId = true
    · simp [handleMomentClick, hv, hpts, looseNull]
    · simp [handleMomentClick, hv]

/-- C8 witness: the seek theorem applied at `"not-a-time"` (silent no-op on
a mounted handle) and at `"02:05"` (command issued to handle and frame). -/
theorem C8_witness :
    seekToTimestamp (jstr "not-a-time") (some { hasSeekToFn := true }) = [] ∧
      seekToTimestamp (jstr "02:05") (some { hasSeekToFn := true }) =
        [.seekTo (jnum 125) true, .playVideo] ∧
      handleMomentClick (jstr "02:05") (jstr "abc") (some { hasContentWindow := true }) =
        .ok [.postCommand "command" "seekTo" (jnum 125) true] := by
  have h1 : timestampToSeconds (jstr "02:05") = jnum 125 := by
    norm_num +decide [timestampToSeconds, isDigitRun, splitOnChar, jsNumberOfChars, trimWs,
      isWs, jsWsChars, readSign, readRadix, readDecimal, readMantissa, readExponent,
      show digitsVal ['0','2'] = 2 from rfl,
      show digitsVal ['0','5'] = 5 from rfl]
  have h2 : parseTimestampToSeconds (jstr "02:05") = .ok (jnum 125) := by
    norm_num +decide [parseTimestampToSeconds, truthy, splitOnChar, jsParseIntChars,
      dropLeadingWs, isWs, readSign, show digitsVal ['0','2'] = 2 from rfl,
      show digitsVal ['0','5'] = 5 from rfl]
  exact ⟨C8_seek.2.2.2.2.2.2.2.1 _, C8_seek.2.2.2.1 _ 125 h1,
    C8_seek.2.2.2.2.2.2.1 _ (jstr "abc") 125 (by decide) h2⟩

/-! ## Claims C6 and C10: Mode A segmentation -/

theorem floor_div_floor (x : ℚ) (b : ℤ) (hb : 0 < b) :
    ⌊((⌊x⌋ : ℚ)) / (b : ℚ)⌋ = ⌊x / (b : ℚ)⌋ := by
  have hbq : (0 : ℚ) < (b : ℚ) := by exact_mod_cast hb
  apply le_antisymm
  · apply Int.floor_le_floor
    gcongr
    exact Int.floor_le x
  · rw [Int.le_floor]
    rw [le_div_iff hbq]
    have : (⌊x / (b : ℚ)⌋ * b : ℤ) ≤ ⌊x⌋ := by
      rw [Int.le_floor]
      push_cast
      rw [← le_div_iff hbq]
      exact Int.floor_le _
    exact_mod_cast this
  
theorem bucketKey_eq_claim (bs : ℤ) (hb : 0 < bs) (line : TranscriptLine) :
    bucketKey bs line = ⌊lineStartOr0 line / (bs : ℚ)⌋ * bs := by
  rw [bucketKey, Int.fdiv_eq_ediv _ hb.le]
  congr 1
  have hcast : ((bs : ℚ)) = ((bs.toNat : ℕ) : ℚ) := by
    rw [show ((bs.toNat : ℕ) : ℚ) = ((bs.toNat : ℤ) : ℚ) from by push_cast; ring,
      Int.toNat_of_nonneg hb.le]
  calc ⌊lineStartOr0 line⌋ / bs
      = ⌊lineStartOr0 line⌋ / (bs.toNat : ℤ) := by rw [Int.toNat_of_nonneg hb.le]
    _ = ⌊((⌊lineStartOr0 line⌋ : ℚ)) / ((bs.toNat : ℕ) : ℚ)⌋ :=
        (Rat.floor_intCast_div_natCast _ _).symm
    _ = ⌊((⌊lineStartOr0 line⌋ : ℚ)) / (bs : ℚ)⌋ := by rw [hcast]
    _ = ⌊lineStartOr0 line / (bs : ℚ)⌋ := floor_div_floor _ _ hb

theorem computeBlockSize_pos (d : ℚ) : 0 < computeBlockSize d := by
  rw [computeBlockSize]
  split
  · norm_num
  · have : (30 : ℤ) ≤ max 30 ⌊d * (5 / 100)⌋ := le_max_left _ _
    omega

theorem pushLine_stop (bs : ℤ) (gs : List TimeBucket) (line : TranscriptLine)
    (h : ∀ b ∈ gs, b.stop = b.start + bs) :
    ∀ b ∈ pushLine bs gs line, b.stop = b.start + bs := by
  intro b hb
  rw [pushLine] at hb
  split at hb
  · obtain ⟨b0, hb0, hb0e⟩ := List.mem_map.mp hb
    split at hb0e <;> rw [← hb0e] <;> simpa using h b0 hb0
  · rcases List.mem_append.mp hb with hb | hb
    · exact h b hb
    · simp only [List.mem_singleton] at hb
      rw [hb]

theorem pushLine_starts (bs : ℤ) (gs : List TimeBucket) (line : TranscriptLine) :
    (pushLine bs gs line).map (fun b => b.start) = gs.map (fun b => b.start) ∨
      (pushLine bs gs line).map (fun b => b.start) =
        gs.map (fun b => b.start) ++ [bucketKey bs line] := by
  rw [pushLine]
  split
  · left
    rw [List.map_map]
    apply List.map_congr_left
    intro b _
    simp only [Function.comp_apply]
    split <;> rfl
  · right
    simp

theorem pushLine_nodup (bs : ℤ) (gs : List TimeBucket) (line : TranscriptLine)
    (h : (gs.map (fun b => b.start)).Nodup) :
    ((pushLine bs gs line).map (fun b => b.start)).Nodup := by
  rw [pushLine]
  split
  · next hmem =>
    have : (List.map (fun b => b.start)
        (gs.map fun b => if b.start = bucketKey bs line
          then { b with items := b.items ++ [mkBucketItem line] } else b)) =
        gs.map fun b => b.start := by
      rw [List.map_map]
      apply List.map_congr_left
      intro b _
      simp only [Function.comp_apply]
      split <;> rfl
    rw [this]
    exact h
  · next hmem =>
    have hnot : bucketKey bs line ∉ gs.map (fun b => b.start) := by
      intro hc
      obtain ⟨b0, hb0, hb0e⟩ := List.mem_map.mp hc
      exact hmem (List.any_eq_true.mpr ⟨b0, hb0, by simp [hb0e]⟩)
    simp only [List.map_append, List.map_singleton]
    rw [List.nodup_append]
    exact ⟨h, List.nodup_singleton _, by simpa using hnot⟩

theorem totalItems_append (a b : List TimeBucket) :
    totalItems (a ++ b) = totalItems a + totalItems b := by
  simp [totalItems]

theorem totalItems_cons (b : TimeBucket) (t : List TimeBucket) :
    totalItems (b :: t) = b.items.length + totalItems t := by
  simp [totalItems]

theorem totalItems_update (key : ℤ) (item : BucketItem) :
    ∀ gs : List TimeBucket, (gs.map (fun b => b.start)).Nodup →
      (gs.any fun b => b.start = key) = true →
      totalItems (gs.map fun b =>
        if b.start = key then { b with items := b.items ++ [item] } else b) =
        totalItems gs + 1 := by
  intro gs
  induction gs with
  | nil => intro _ hany; simp at hany
  | cons g rest ih =>
    intro hnd hany
    rw [List.map_cons, List.nodup_cons] at hnd
    rw [List.map_cons, totalItems_cons, totalItems_cons]
    by_cases hg : g.start = key
    · rw [if_pos hg]
      have hrest : rest.map (fun b =>
          if b.start = key then { b with items := b.items ++ [item] } else b) = rest := by
        have : ∀ b ∈ rest, (if b.start = key
            then { b with items := b.items ++ [item] } else b) = b := by
          intro b hbr
          rw [if_neg]
          intro hc
          exact hnd.1 (hg ▸ hc ▸ List.mem_map_of_mem (fun b => b.start) hbr)
        calc rest.map _ = rest.map id := List.map_congr_left this
          _ = rest := List.map_id rest
      rw [hrest]
      simp
      omega
    · rw [if_neg hg]
      have hany' : (rest.any fun b => b.start = key) = true := by
        rcases List.any_eq_true.mp hany with ⟨b0, hb0, hb0k⟩
        rcases List.mem_cons.mp hb0 with rfl | hb0r
        · simp only [decide_eq_true_eq] at hb0k
          exact absurd hb0k hg
        · exact List.any_eq_true.mpr ⟨b0, hb0r, hb0k⟩
      rw [ih hnd.2 hany']
      omega

theorem totalItems_pushLine (bs : ℤ) (line : TranscriptLine) (gs : List TimeBucket)
    (hnd : (gs.map (fun b => b.start)).Nodup) :
    totalItems (pushLine bs gs line) = totalItems gs + 1 := by
  rw [pushLine]
  split
  · next hmem => exact totalItems_update _ _ gs hnd hmem
  · next hmem =>
    rw [totalItems_append]
    simp [totalItems]

theorem pushLine_creates (bs : ℤ) (gs : List TimeBucket) (line : TranscriptLine)
    (hstop : ∀ b ∈ gs, b.stop = b.start + bs) :
    ∃ b ∈ pushLine bs gs line, b.start = bucketKey bs line ∧
      b.stop = bucketKey bs line + bs ∧ mkBucketItem line ∈ b.items := by
  rw [pushLine]
  split
  · next hmem =>
    obtain ⟨b0, hb0, hb0k⟩ := List.any_eq_true.mp hmem
    simp only [decide_eq_true_eq] at hb0k
    refine ⟨{ b0 with items := b0.items ++ [mkBucketItem line] }, ?_, by simp [hb0k], ?_, by simp⟩
    · exact List.mem_map.mpr ⟨b0, hb0, by rw [if_pos hb0k]⟩
    · simpa [hb0k] using hstop b0 hb0
  · next hmem =>
    exact ⟨TimeBucket.mk (bucketKey bs line) (bucketKey bs line + bs) [mkBucketItem line],
      by simp, rfl, rfl, by simp⟩

theorem pushLine_mono (bs : ℤ) (gs : List TimeBucket) (line : TranscriptLine)
    {st sp : ℤ} {item : BucketItem}
    (h : ∃ b ∈ gs, b.start = st ∧ b.stop = sp ∧ item ∈ b.items) :
    ∃ b ∈ pushLine bs gs line, b.start = st ∧ b.stop = sp ∧ item ∈ b.items := by
  obtain ⟨b0, hb0, hs, hp, hi⟩ := h
  rw [pushLine]
  split
  · by_cases hk : b0.start = bucketKey bs line
    · refine ⟨{ b0 with items := b0.items ++ [mkBucketItem line] }, ?_, hs, hp, by simp [hi]⟩
      exact List.mem_map.mpr ⟨b0, hb0, by rw [if_pos hk]⟩
    · refine ⟨b0, ?_, hs, hp, hi⟩
      exact List.mem_map.mpr ⟨b0, hb0, by rw [if_neg hk]⟩
  · exact ⟨b0, List.mem_append_left _ hb0, hs, hp, hi⟩

theorem fold_stop (bs : ℤ) :
    ∀ (ls : List TranscriptLine) (gs : List TimeBucket),
      (∀ b ∈ gs, b.stop = b.start + bs) →
      ∀ b ∈ ls.foldl (pushLine bs) gs, b.stop = b.start + bs := by
  intro ls
  induction ls with
  | nil => intro gs h; exact h
  | cons l rest ih =>
    intro gs h
    rw [List.foldl_cons]
    exact ih _ (pushLine_stop bs gs l h)

theorem fold_nodup (bs : ℤ) :
    ∀ (ls : List TranscriptLine) (gs : List TimeBucket),
      (gs.map (fun b => b.start)).Nodup →
      ((ls.foldl (pushLine bs) gs).map (fun b => b.start)).Nodup := by
  intro ls
  induction ls with
  | nil => intro gs h; exact h
  | cons l rest ih =>
    intro gs h
    rw [List.foldl_cons]
    exact ih _ (pushLine_nodup bs gs l h)

theorem fold_totalItems (bs : ℤ) :
    ∀ (ls : List TranscriptLine) (gs : List TimeBucket),
      (gs.map (fun b => b.start)).Nodup →
      totalItems (ls.foldl (pushLine bs) gs) = totalItems gs + ls.length := by
  intro ls
  induction ls with
  | nil => intro gs _; simp
  | cons l rest ih =>
    intro gs h
    rw [List.foldl_cons, ih _ (pushLine_nodup bs gs l h), totalItems_pushLine bs l gs h,
      List.length_cons]
    omega

theorem fold_mono (bs : ℤ) {st sp : ℤ} {item : BucketItem} :
    ∀ (ls : List TranscriptLine) (gs : List TimeBucket),
      (∃ b ∈ gs, b.start = st ∧ b.stop = sp ∧ item ∈ b.items) →
      ∃ b ∈ ls.foldl (pushLine bs) gs, b.start = st ∧ b.stop = sp ∧ item ∈ b.items := by
  intro ls
  induction ls with
  | nil => intro gs h; exact h
  | cons l rest ih =>
    intro gs h
    rw [List.foldl_cons]
    exact ih _ (pushLine_mono bs gs l h)

theorem fold_mem (bs : ℤ) :
    ∀ (ls : List TranscriptLine) (gs : List TimeBucket),
      (∀ b ∈ gs, b.stop = b.start + bs) →
      ∀ line ∈ ls,
        ∃ b ∈ ls.foldl (pushLine bs) gs, b.start = bucketKey bs line ∧
          b.stop = bucketKey bs line + bs ∧ mkBucketItem line ∈ b.items := by
  intro ls
  induction ls with
  | nil => intro gs _ line hl; simp at hl
  | cons l rest ih =>
    intro gs hstop line hl
    rw [List.foldl_cons]
    rcases List.mem_cons.mp hl with rfl | hl
    · exact fold_mono bs rest _ (pushLine_creates bs gs line hstop)
    · exact ih _ (pushLine_stop bs gs l hstop) line hl

/-- C6: Mode A — bucket size is 120 for non-positive duration and
`max(30, floor(duration * 0.05))` otherwise; every transcript line is placed
in a bucket whose `start` is `floor((line.start || 0) / bucketSize) * bucketSize`
and whose `end` is `start + bucketSize`, as an item carrying the line's
fields plus its Codec-formatted timestamp; and the returned buckets are in
ascending `start` order. -/
theorem C6_modeA (transcript : List TranscriptLine) (duration : ℚ) :
    (duration ≤ 0 → computeBlockSize duration = 120) ∧
    (0 < duration → computeBlockSize duration = max 30 ⌊duration * (5 / 100)⌋) ∧
    (groupTranscriptByPercent transcript duration).Sorted bucketLE ∧
    (∀ line ∈ transcript,
      ∃ b ∈ groupTranscriptByPercent transcript duration,
        b.start = ⌊lineStartOr0 line / (computeBlockSize duration : ℚ)⌋ *
            computeBlockSize duration ∧
          b.stop = b.start + computeBlockSize duration ∧
          BucketItem.mk line.start line.text (formatTimestamp (lineStartJS line)) ∈
            b.items) := by
  refine ⟨fun h => by rw [computeBlockSize, if_pos h],
    fun h => by rw [computeBlockSize, if_neg (by linarith)], ?_, ?_⟩
  · rw [groupTranscriptByPercent]
    split
    · exact List.sorted_nil
    · exact List.sorted_insertionSort bucketLE _
  · intro line hline
    have hne : transcript.isEmpty = false := by
      cases transcript with
      | nil => simp at hline
      | cons a t => rfl
    rw [groupTranscriptByPercent, if_neg (by simp [hne])]
    obtain ⟨b, hbmem, hstart, hstop, hitem⟩ :=
      fold_mem (computeBlockSize duration) transcript [] (by simp) line hline
    refine ⟨b, (List.mem_insertionSort bucketLE).mpr hbmem, ?_, ?_, hitem⟩
    · rw [hstart, bucketKey_eq_claim _ (computeBlockSize_pos duration)]
    · rw [hstop, hstart]

/-- C6 witness: the Mode A theorem applied to the specification's example —
lines `[{start:0,"Hello"},{start:125,"World"}]` with duration 1000 give
bucket size 50 and place the second line in the bucket `[100,150)` with
formatted timestamp `"02:05"`. -/
theorem C6_witness :
    computeBlockSize 1000 = 50 ∧
      (∃ b ∈ groupTranscriptByPercent
          [TranscriptLine.mk (some 0) "Hello", TranscriptLine.mk (some 125) "World"] 1000,
        b.start = 100 ∧ b.stop = 150 ∧
          BucketItem.mk (some 125) "World" "02:05" ∈ b.items) := by
  have hbs : computeBlockSize 1000 = 50 := by
    rw [(C6_modeA [] 1000).2.1 (by norm_num)]
    norm_num
  have h4 := (C6_modeA
    [TranscriptLine.mk (some 0) "Hello", TranscriptLine.mk (some 125) "World"] 1000).2.2.2
    (TranscriptLine.mk (some 125) "World") (by simp)
  obtain ⟨b, hb, h1, h2, h3⟩ := h4
  have hts : formatTimestamp (lineStartJS (TranscriptLine.mk (some 125) "World")) = "02:05" := by
    show formatTimestamp (jnum 125) = "02:05"
    norm_num [formatTimestamp]
    decide
  have hstart : b.start = 100 := by
    rw [h1, hbs]
    norm_num [lineStartOr0]
  refine ⟨hbs, b, hb, hstart, ?_, ?_⟩
  · rw [h2, hstart, hbs]
    norm_num
  · rw [← hts]
    exact h3

/-- C10: Mode A segmentation loses and duplicates nothing — the total number
of items across all buckets equals the number of input lines, and a line
whose `start` is missing/null or `0` lands in the bucket whose start is 0. -/
theorem C10_no_loss (transcript : List TranscriptLine) (duration : ℚ) :
    totalItems (groupTranscriptByPercent transcript duration) = transcript.length ∧
    (∀ line ∈ transcript, line.start = none ∨ line.start = some 0 →
      ∃ b ∈ groupTranscriptByPercent transcript duration, b.start = 0 ∧
        BucketItem.mk line.start line.text (formatTimestamp (lineStartJS line)) ∈
          b.items) := by
  constructor
  · rw [groupTranscriptByPercent]
    split
    · next he =>
      have : transcript = [] := List.isEmpty_iff.mp he
      simp [this, totalItems]
    · next he =>
      have hperm : (((List.foldl (pushLine (computeBlockSize duration)) [] transcript).insertionSort
          bucketLE).map fun b => b.items.length).Perm
          ((List.foldl (pushLine (computeBlockSize duration)) [] transcript).map
            fun b => b.items.length) :=
        (List.perm_insertionSort bucketLE _).map _
      rw [totalItems, hperm.sum_eq]
      have := fold_totalItems (computeBlockSize duration) transcript [] (by simp)
      rw [totalItems] at this
      simpa [totalItems] using this
  · intro line hline hzero
    have hne : transcript.isEmpty = false := by
      cases transcript with
      | nil => simp at hline
      | cons a t => rfl
    rw [groupTranscriptByPercent, if_neg (by simp [hne])]
    obtain ⟨b, hbmem, hstart, hstop, hitem⟩ :=
      fold_mem (computeBlockSize duration) transcript [] (by simp) line hline
    refine ⟨b, (List.mem_insertionSort bucketLE).mpr hbmem, ?_, hitem⟩
    rw [hstart, bucketKey]
    have h0 : lineStartOr0 line = 0 := by
      rcases hzero with h | h <;> simp [lineStartOr0, h]
    rw [h0]
    norm_num

/-- C10 witness: the no-loss theorem applied to one line with missing start
and one with start 0 at duration 0 (bucket size 120): two items in total,
both in the bucket starting at 0. -/
theorem C10_witness :
    totalItems (groupTranscriptByPercent
        [TranscriptLine.mk none "a", TranscriptLine.mk (some 0) "b"] 0) = 2 ∧
      (∃ b ∈ groupTranscriptByPercent
          [TranscriptLine.mk none "a", TranscriptLine.mk (some 0) "b"] 0,
        b.start = 0 ∧ BucketItem.mk none "a" (formatTimestamp (lineStartJS
          (TranscriptLine.mk none "a"))) ∈ b.items) := by
  refine ⟨(C10_no_loss _ 0).1, ?_⟩
  exact (C10_no_loss _ 0).2 (TranscriptLine.mk none "a") (by simp) (Or.inl rfl)

/-! ## Claim C7: Mode B free-text segmentation -/

theorem fold_hasTs :
    ∀ (ls : List String) (m : List (String × SegEntry)) (b : Bool),
      (∀ l ∈ ls, matchMarker l.toList = none) → (ls.foldl segStep (m, b)).2 = b := by
  intro ls
  induction ls with
  | nil => intro m b _; rfl
  | cons l rest ih =>
    intro m b h
    have hstep : (segStep (m, b) l).2 = b := by
      rw [segStep, h l (by simp)]
    rcases hseg : segStep (m, b) l with ⟨m2, b2⟩
    have hb2 : b2 = b := by
      rw [hseg] at hstep
      exact hstep
    rw [List.foldl_cons, hseg, hb2]
    exact ih m2 b (fun l2 hl2 => h l2 (by simp [hl2]))

theorem chunk4_length :
    ∀ (ls : List String) (k : ℕ), (chunk4 ls k).length = (ls.length + 3) / 4
  | [], _ => by simp [chunk4]
  | [a], _ => by simp [chunk4]
  | [a, b], _ => by simp [chunk4]
  | [a, b, c], _ => by simp [chunk4]
  | a :: b :: c :: d :: rest, k => by
    rw [chunk4, List.length_cons, chunk4_length rest (k + 1)]
    simp only [List.length_cons]
    omega

theorem chunk4_get :
    ∀ (ls : List String) (k0 k : ℕ), k < (chunk4 ls k0).length →
      (chunk4 ls k0)[k]? =
        some (Segment.mk none ("Section " ++ toString (k0 + k + 1))
          (limitWords (" ".intercalate ((ls.drop (4 * k)).take 4)) 50))
  | [], k0, k, hk => by simp [chunk4] at hk
  | [a], k0, 0, hk => by simp [chunk4]
  | [a], k0, k + 1, hk => by simp [chunk4] at hk
  | [a, b], k0, 0, hk => by simp [chunk4]
  | [a, b], k0, k + 1, hk => by simp [chunk4] at hk
  | [a, b, c], k0, 0, hk => by simp [chunk4]
  | [a, b, c], k0, k + 1, hk => by simp [chunk4] at hk
  | a :: b :: c :: d :: rest, k0, 0, hk => by
    rw [chunk4]
    simp
  | a :: b :: c :: d :: rest, k0, k + 1, hk => by
    have hk' : k < (chunk4 rest (k0 + 1)).length := by
      rw [chunk4, List.length_cons] at hk
      omega
    rw [chunk4, List.getElem?_cons_succ, chunk4_get rest (k0 + 1) k hk']
    have harith : k0 + 1 + k + 1 = k0 + (k + 1) + 1 := by omega
    have hdrop : rest.drop (4 * k) = (a :: b :: c :: d :: rest).drop (4 * (k + 1)) := by
      rw [show 4 * (k + 1) = (4 * k) + 1 + 1 + 1 + 1 from by omega]
      rfl
    rw [harith, hdrop]

theorem limitWords_spec (s : String) :
    limitWords s 50 = " ".intercalate ((jsWords s).take 50) ++
      (if 50 < (jsWords s).length then "…" else "") := by
  rw [limitWords]
  by_cases hs : s = ""
  · rw [if_pos hs]
    subst hs
    rfl
  · rw [if_neg hs]
    by_cases hlen : (jsWords s).length ≤ 50
    · rw [if_pos hlen, List.take_of_length_le hlen, if_neg (by omega)]
      simp
    · rw [if_neg hlen, if_pos (by omega)]

/-- C7: Mode B with no time markers — when no nonempty line of the input
carries a bracketed leading time marker, the lines are chunked 4 per
segment, labelled sequentially `Section 1, 2, …`, and each segment's text is
`limitWords` of its chunk; `limitWords` caps the text at 50 words, never
truncates mid-word (the kept text is the join of the first 50 whole words),
and appends the ellipsis exactly when the chunk exceeded 50 words. -/
theorem C7_modeB (text : String)
    (hnm : ∀ l ∈ splitNonEmptyLines text, matchMarker l.toList = none) :
    (buildTranscriptSegments text).length = ((splitNonEmptyLines text).length + 3) / 4 ∧
    (∀ k : ℕ, k < (buildTranscriptSegments text).length →
      (buildTranscriptSegments text)[k]? =
        some (Segment.mk none ("Section " ++ toString (k + 1))
          (limitWords (" ".intercalate
            (((splitNonEmptyLines text).drop (4 * k)).take 4)) 50))) ∧
    (∀ s : String, limitWords s 50 = " ".intercalate ((jsWords s).take 50) ++
      (if 50 < (jsWords s).length then "…" else "")) := by
  have hbuild : buildTranscriptSegments text = chunk4 (splitNonEmptyLines text) 0 ∨
      buildTranscriptSegments text = [] ∧ splitNonEmptyLines text = [] := by
    rw [buildTranscriptSegments]
    by_cases ht : text = ""
    · right
      rw [if_pos ht, ht]
      exact ⟨rfl, rfl⟩
    · rw [if_neg ht]
      by_cases hl : (splitNonEmptyLines text).isEmpty
      · right
        rw [if_pos hl]
        exact ⟨rfl, List.isEmpty_iff.mp hl⟩
      · left
        rw [if_neg hl]
        simp only [fold_hasTs (splitNonEmptyLines text) [] false hnm, Bool.not_false, if_true]
  rcases hbuild with hb | ⟨hb, hl⟩
  · rw [hb]
    refine ⟨chunk4_length _ 0, ?_, limitWords_spec⟩
    intro k hk
    rw [chunk4_get _ 0 k hk]
    simp
  · rw [hb, hl]
    exact ⟨rfl, fun k hk => by simp at hk, limitWords_spec⟩

/-- C7 witness: the Mode B theorem applied to five marker-less lines —
two segments, `Section 1` holding the first four lines and `Section 2` the
fifth. -/
theorem C7_witness :
    (∀ l ∈ splitNonEmptyLines "a\nb\nc\nd\ne", matchMarker l.toList = none) ∧
      (buildTranscriptSegments "a\nb\nc\nd\ne").length = 2 ∧
      buildTranscriptSegments "a\nb\nc\nd\ne" =
        [Segment.mk none "Section 1" "a b c d", Segment.mk none "Section 2" "e"] := by
  have hnm : ∀ l ∈ splitNonEmptyLines "a\nb\nc\nd\ne", matchMarker l.toList = none := by
    decide
  refine ⟨hnm, ?_, by decide⟩
  rw [(C7_modeB _ hnm).1]
  decide

end YtSum
